import Mathlib

/-
Shallow embedding of src/observable.ts (rse/observable).

JavaScript values are modelled by JSVal: primitives carry their payload
directly, objects are references (natural-number identifiers) into an
explicit heap.  Proxy facades are identified by the entries of the
observable map (the obs component of the state); reads through a facade
forward to its raw heap object, exactly as the source's get traps do.
Observer callbacks are modelled as opaque identifiers; delivering an
observation to a callback appends the pair to an event log, which is what
the specification's claims quantify over (the claims only concern
observers that record their observations).  JS numbers are modelled as
Int: every number appearing in the claims is a small integer, and
typed-array element-width coercion never comes into play at the claimed
inputs.  Functions are fuel-indexed where the source recursion follows
heap references; running out of fuel is a distinguished error that never
occurs at the fuels used in the theorems below.
-/

namespace Obs

/-- Primitive (non-object) JavaScript values. -/
inductive Prim where
  | undefined : Prim
  | null  : Prim
  | bool  : Bool → Prim
  | num   : Int → Prim
  | str   : String → Prim
deriving DecidableEq, Repr

/-- A JavaScript value: a primitive, or a reference to a heap object
(raw object or proxy facade). -/
inductive JSVal where
  | prim : Prim → JSVal
  | obj  : Nat → JSVal
deriving DecidableEq, Repr

/-- Abbreviation for a string value. -/
def strV (s : String) : JSVal := .prim (.str s)

/-- Abbreviation for a number value. -/
def numV (n : Int) : JSVal := .prim (.num n)

/-- Abbreviation for undefined. -/
def undefV : JSVal := .prim .undefined

/-- Abbreviation for null. -/
def nullV : JSVal := .prim .null

/-- Heap objects, one constructor per structural kind the source
dispatches on (observable.ts lines 84-439).  The payload of the opaque
pass-through kinds (Date, RegExp, Error) is irrelevant to every claim and
omitted; an unsupported object kind (for example a class instance) is
modelled by the constructor named other. -/
inductive HObj where
  | record : List (String × JSVal) → HObj
  | arr    : List JSVal → HObj
  | set    : List JSVal → HObj
  | map    : List (JSVal × JSVal) → HObj
  | typed  : List Int → HObj
  | date   : HObj
  | regexp : HObj
  | error  : HObj
  | other  : HObj
deriving DecidableEq, Repr

/-- Observation type tag (the type field of an Observation,
observable.ts line 16). -/
inductive EvType where
  | change : EvType
  | delete : EvType
deriving DecidableEq, Repr

/-- An Observation as delivered to a callback (observable.ts lines
15-21).  The target is the facade identity at the level being notified;
path is the value actually passed to the callback: the source hands
non-string path tokens through unchanged at the innermost level and only
stringifies while prefixing for ancestors. -/
structure Event where
  type     : EvType
  target   : Nat
  path     : JSVal
  valueNew : JSVal
  valueOld : JSVal
deriving DecidableEq, Repr

/-- ObservableInfo (observable.ts lines 28-34).  callbacks is kept in
registration order (a JS Set iterates in insertion order); paused is the
per-callback pause-flag map.  The strict field records the strict flag
captured by the proxy's trap closures at creation time. -/
structure Info where
  raw       : Nat
  name      : JSVal
  parent    : Option Nat
  callbacks : List Nat
  paused    : List (Nat × Bool)
  strict    : Bool
deriving DecidableEq, Repr

/-- Global state: the heap of raw objects, the observable map keyed by
facade identity, the fresh-identity counter, and the log of delivered
observations (callback identifier paired with the observation). -/
structure St where
  heap : List (Nat × HObj)
  obs  : List (Nat × Info)
  next : Nat
  log  : List (Nat × Event)
deriving DecidableEq, Repr

/-- Errors raised by the source, one constructor per distinct throw site,
plus fuel exhaustion for the fuel-indexed interpreter and internal for
states the source cannot reach (dangling references). -/
inductive Err where
  | fuel          : Err
  | notAnObject   : Err
  | onlyObjects   : Err
  | typeError     : Err
  | unsupported   : Err
  | notObservable : Err
  | duplicate     : Err
  | stale         : Err
  | internal      : Err
deriving DecidableEq, Repr

/-- First-match association-list lookup. -/
def alook {α : Type} : List (Nat × α) → Nat → Option α
  | [], _ => none
  | (k, v) :: r, k' => if k = k' then some v else alook r k'

/-- Replace the value stored at a key (keys are unique in every state the
theorems touch, so replacing every match is the JS map update). -/
def aupd {α : Type} (l : List (Nat × α)) (k : Nat) (v : α) : List (Nat × α) :=
  l.map (fun p => if p.1 = k then (k, v) else p)

/-- Heap lookup. -/
def lookHeap (st : St) (id : Nat) : Option HObj := alook st.heap id

/-- Observable-map lookup. -/
def lookObs (st : St) (id : Nat) : Option Info := alook st.obs id

/-- Heap update (contents of an existing raw object). -/
def updHeap (st : St) (id : Nat) (h : HObj) : St :=
  { st with heap := aupd st.heap id h }

/-- Observable-map entry update. -/
def updObs (st : St) (id : Nat) (i : Info) : St :=
  { st with obs := aupd st.obs id i }

/-- Allocate a fresh heap object. -/
def allocH (st : St) (h : HObj) : Nat × St :=
  (st.next, { st with heap := (st.next, h) :: st.heap, next := st.next + 1 })

/-- The test typeof v === "object": true exactly for null and for every
object reference. -/
def isObjTy : JSVal → Bool
  | .prim .null => true
  | .obj _ => true
  | _ => false

/-- String(v) for the values the source stringifies (path tokens and
names while prefixing).  String() of an object gives a bracketed tag; no
claim exercises that case. -/
def jsStr : JSVal → String
  | .prim .undefined => "undefined"
  | .prim .null => "null"
  | .prim (.bool true) => "true"
  | .prim (.bool false) => "false"
  | .prim (.num n) => toString n
  | .prim (.str s) => s
  | .obj _ => "[object Object]"

/-- ToNumber-style coercion for typed-array method arguments; undefined
gives the supplied default (slice and fill treat a missing end argument
as the length).  Other non-numeric arguments never occur at the claimed
inputs. -/
def jsIntD (v : JSVal) (d : Int) : Int :=
  match v with
  | .prim (.num n) => n
  | .prim .undefined => d
  | _ => 0

/-- args i with undefined for a missing argument, as in JS. -/
def argD (args : List JSVal) (i : Nat) : JSVal :=
  args.getD i (.prim .undefined)

/-- Property read on a plain object (undefined when absent). -/
def fget : List (String × JSVal) → String → JSVal
  | [], _ => .prim .undefined
  | (k, v) :: r, k' => if k = k' then v else fget r k'

/-- Property-presence test on a plain object. -/
def fhas : List (String × JSVal) → String → Bool
  | [], _ => false
  | (k, _) :: r, k' => k = k' || fhas r k'

/-- Property assignment on a plain object: overwrite in place when the
key is present (preserving key order), append otherwise. -/
def fset (l : List (String × JSVal)) (k : String) (v : JSVal) :
    List (String × JSVal) :=
  if fhas l k then l.map (fun p => if p.1 = k then (k, v) else p)
  else l ++ [(k, v)]

/-- Map.get (undefined when the key is absent); key comparison is
SameValueZero, which on the modelled values is plain equality. -/
def eget : List (JSVal × JSVal) → JSVal → JSVal
  | [], _ => .prim .undefined
  | (k, v) :: r, k' => if k = k' then v else eget r k'

/-- Map.has. -/
def ehas : List (JSVal × JSVal) → JSVal → Bool
  | [], _ => false
  | (k, _) :: r, k' => k = k' || ehas r k'

/-- Map.set: replace in place when present, append otherwise. -/
def eset (l : List (JSVal × JSVal)) (k : JSVal) (v : JSVal) :
    List (JSVal × JSVal) :=
  if ehas l k then l.map (fun p => if p.1 = k then (k, v) else p)
  else l ++ [(k, v)]

/-- Map.delete: remove the entry for a key. -/
def edel (l : List (JSVal × JSVal)) (k : JSVal) : List (JSVal × JSVal) :=
  l.filter (fun p => p.1 ≠ k)

/-- Set membership. -/
def smem (l : List JSVal) (v : JSVal) : Bool := l.contains v

/-- Set.delete: remove a member. -/
def sdel (l : List JSVal) (v : JSVal) : List JSVal :=
  l.filter (fun x => x ≠ v)

/-- Array index assignment; an index at or beyond the current length
extends the array, filling any gap with holes (modelled as undefined). -/
def aset (l : List JSVal) (i : Nat) (v : JSVal) : List JSVal :=
  if i < l.length then l.set i v
  else l ++ List.replicate (i - l.length) (.prim .undefined) ++ [v]

/-- Relative-index clamping shared by TypedArray slice and fill. -/
def clampIdx (len : Nat) (i : Int) : Nat :=
  if i < 0 then ((len : Int) + i).toNat else min i.toNat len

/-- TypedArray.slice on already-clamped bounds (allocates a fresh buffer
at the call sites below, as in JS). -/
def sliceT (l : List Int) (s e : Nat) : List Int :=
  (l.drop s).take (e - s)

/-- TypedArray.fill on already-clamped bounds. -/
def fillT (l : List Int) (v : Int) (s e : Nat) : List Int :=
  l.mapIdx (fun i x => if s ≤ i && i < e then v else x)

/-- Paused-flag read: Map.get of an absent callback is undefined, which
the source negates, so only an explicit true flag suppresses delivery. -/
def pausedOf (l : List (Nat × Bool)) (cb : Nat) : Bool :=
  (alook l cb).getD false

/-- Paused-flag write (Map.set semantics). -/
def bset (l : List (Nat × Bool)) (k : Nat) (b : Bool) : List (Nat × Bool) :=
  if (alook l k).isSome then aupd l k b else l ++ [(k, b)]

/-- One delivery round (observable.ts lines 48-51): every callback whose
paused flag is not set receives the observation, in registration order. -/
def deliver (info : Info) (target : Nat) (type : EvType)
    (path valueNew valueOld : JSVal) : List (Nat × Event) :=
  (info.callbacks.filter (fun cb => !(pausedOf info.paused cb))).map
    (fun cb => (cb, { type := type, target := target, path := path,
                      valueNew := valueNew, valueOld := valueOld }))

/-- triggerObserver (observable.ts lines 40-57): notify the callbacks of
the target facade, then recurse on the parent with the path prefixed by
String(name) and a dot (the template literal also stringifies the path).
The recursion climbs the parent chain, whose length is bounded by the
nesting depth; the fuel index only exists to make the function total and
is never exhausted at the fuels used below. -/
def triggerObserver (fuel : Nat) (type : EvType) (target : Nat)
    (path valueNew valueOld : JSVal) (st : St) : Except Err St :=
  match fuel with
  | 0 => .error .fuel
  | fuel + 1 =>
    match lookObs st target with
    | none => .error .internal
    | some info =>
      let st1 : St :=
        { st with log := st.log ++ deliver info target type path valueNew valueOld }
      match info.parent with
      | none => .ok st1
      | some p =>
        triggerObserver fuel type p
          (.prim (.str (jsStr info.name ++ "." ++ jsStr path))) valueNew valueOld st1
termination_by structural fuel

/-- observableMap.has on an arbitrary value; WeakMap.has of a primitive
key (null included) is false. -/
def obsHas (st : St) (v : JSVal) : Bool :=
  match v with
  | .obj id => (lookObs st id).isSome
  | _ => false

/-- isObservable (observable.ts lines 451-455). -/
def isObservable (st : St) (v : JSVal) : Except Err Bool :=
  if isObjTy v then .ok (obsHas st v) else .error .notAnObject

/-- addInfo (observable.ts lines 73-81) together with the creation of the
proxy identity: the proxy is a fresh object identity whose entry in the
observable map points back at the raw object. -/
def addInfo (st : St) (id : Nat) (name : JSVal) (parent : Option Nat)
    (strict : Bool) : Nat × St :=
  (st.next,
   { st with
     obs := (st.next,
             { raw := id, name := name, parent := parent,
               callbacks := [], paused := [], strict := strict }) :: st.obs,
     next := st.next + 1 })

/-- Set add wrapper (observable.ts lines 93-108, add case): run the real
add, then notify with the wildcard path, the inserted value as valueNew
and no valueOld. -/
def setAddW (fuel : Nat) (f : Nat) (args : List JSVal) (st : St) : Except Err St :=
  match lookObs st f with
  | none => .error .internal
  | some info =>
    match lookHeap st info.raw with
    | some (.set elems) =>
      let a0 := argD args 0
      let elems1 := if smem elems a0 then elems else elems ++ [a0]
      let st1 := updHeap st info.raw (.set elems1)
      triggerObserver fuel .change f (strV ("*")) a0 (.prim .undefined) st1
    | _ => .error .internal

/-- Set delete wrapper (lines 100-101): notify with the wildcard path and
the removed argument as valueOld. -/
def setDelW (fuel : Nat) (f : Nat) (args : List JSVal) (st : St) : Except Err St :=
  match lookObs st f with
  | none => .error .internal
  | some info =>
    match lookHeap st info.raw with
    | some (.set elems) =>
      let a0 := argD args 0
      let st1 := updHeap st info.raw (.set (sdel elems a0))
      triggerObserver fuel .change f (strV ("*")) (.prim .undefined) a0 st1
    | _ => .error .internal

/-- Set clear wrapper (lines 102-103). -/
def setClearW (fuel : Nat) (f : Nat) (st : St) : Except Err St :=
  match lookObs st f with
  | none => .error .internal
  | some info =>
    match lookHeap st info.raw with
    | some (.set _) =>
      let st1 := updHeap st info.raw (.set [])
      triggerObserver fuel .change f (strV ("*")) (.prim .undefined) (.prim .undefined) st1
    | _ => .error .internal

/-- Map set wrapper (observable.ts lines 161-180, set case): remember the
prior value through the real getter, run the real set, then notify with
the raw key as the path token. -/
def mapSetW (fuel : Nat) (f : Nat) (args : List JSVal) (st : St) : Except Err St :=
  match lookObs st f with
  | none => .error .internal
  | some info =>
    match lookHeap st info.raw with
    | some (.map entries) =>
      let a0 := argD args 0
      let a1 := argD args 1
      let valueOld := eget entries a0
      let st1 := updHeap st info.raw (.map (eset entries a0 a1))
      triggerObserver fuel .change f a0 a1 valueOld st1
    | _ => .error .internal

/-- Map delete wrapper (lines 175-176): the source notifies with args 1
as valueOld; Map.delete takes a single argument, so an ordinary call
always carries undefined there. -/
def mapDelW (fuel : Nat) (f : Nat) (args : List JSVal) (st : St) : Except Err St :=
  match lookObs st f with
  | none => .error .internal
  | some info =>
    match lookHeap st info.raw with
    | some (.map entries) =>
      let a0 := argD args 0
      let st1 := updHeap st info.raw (.map (edel entries a0))
      triggerObserver fuel .change f a0 (.prim .undefined) (argD args 1) st1
    | _ => .error .internal

/-- Map clear wrapper (lines 177-178). -/
def mapClearW (fuel : Nat) (f : Nat) (st : St) : Except Err St :=
  match lookObs st f with
  | none => .error .internal
  | some info =>
    match lookHeap st info.raw with
    | some (.map _) =>
      let st1 := updHeap st info.raw (.map [])
      triggerObserver fuel .change f (strV ("*")) (.prim .undefined) (.prim .undefined) st1
    | _ => .error .internal

/-- Array push wrapper (observable.ts lines 347-348): run the real push,
then notify with path String(proxy.length) where the length is read after
the push, args 0 as valueNew and no valueOld. -/
def arrPushW (fuel : Nat) (f : Nat) (args : List JSVal) (st : St) : Except Err St :=
  match lookObs st f with
  | none => .error .internal
  | some info =>
    match lookHeap st info.raw with
    | some (.arr elems) =>
      let elems1 := elems ++ args
      let st1 := updHeap st info.raw (.arr elems1)
      triggerObserver fuel .change f (strV (toString elems1.length))
        (argD args 0) (.prim .undefined) st1
    | _ => .error .internal

/-- Array pop wrapper (lines 349-350): run the real pop, then notify with
path String(proxy.length + 1) where the length is read after the pop, and
the popped element as valueOld. -/
def arrPopW (fuel : Nat) (f : Nat) (st : St) : Except Err St :=
  match lookObs st f with
  | none => .error .internal
  | some info =>
    match lookHeap st info.raw with
    | some (.arr elems) =>
      let result := (elems.getLast?).getD (.prim .undefined)
      let elems1 := elems.dropLast
      let st1 := updHeap st info.raw (.arr elems1)
      triggerObserver fuel .change f (strV (toString (elems1.length + 1)))
        (.prim .undefined) result st1
    | _ => .error .internal

/-- TypedArray fill wrapper (observable.ts lines 264-265 and 279-280):
snapshot this.slice(args 1, args 2) as valueOld, run the real fill, then
notify with args 1 itself as the path token (the raw number, not its
string form) and the freshly sliced filled range as valueNew.  Both
slices allocate new buffers, in that order, as in JS. -/
def typedFillW (fuel : Nat) (f : Nat) (args : List JSVal) (st : St) : Except Err St :=
  match lookObs st f with
  | none => .error .internal
  | some info =>
    match lookHeap st info.raw with
    | some (.typed elems) =>
      let len := elems.length
      let s := clampIdx len (jsIntD (argD args 1) 0)
      let e := clampIdx len (jsIntD (argD args 2) (len : Int))
      let (oldId, st1) := allocH st (.typed (sliceT elems s e))
      let v := jsIntD (argD args 0) 0
      let elems1 := fillT elems v s e
      let st2 := updHeap st1 info.raw (.typed elems1)
      let (newId, st3) := allocH st2 (.typed (sliceT elems1 s e))
      triggerObserver fuel .change f (argD args 1) (.obj newId) (.obj oldId) st3
    | _ => .error .internal

/-- Property read through a plain-object facade (get trap, observable.ts
lines 403-405: a plain forward to Reflect.get on the raw target). -/
def recGet (st : St) (f : Nat) (p : String) : JSVal :=
  match lookObs st f with
  | some info =>
    match lookHeap st info.raw with
    | some (.record fields) => fget fields p
    | _ => .prim .undefined
  | none => .prim .undefined

mutual

/-- Set trap of the plain-object proxy (observable.ts lines 408-416; the
identical trap is installed on every proxy kind): snapshot the old value,
recursively wrap an object-typed assignment that is not yet observable
(with the property as name and the receiving facade as parent, under the
strict flag captured at facade creation), store through Reflect.set, then
notify with path String(p). -/
def recSetT (fuel : Nat) (f : Nat) (p : String) (vNew : JSVal) (st : St) :
    Except Err St :=
  match fuel with
  | 0 => .error .fuel
  | fuel + 1 =>
    match lookObs st f with
    | none => .error .internal
    | some info =>
      match lookHeap st info.raw with
      | some (.record fields) =>
        let valueOld := fget fields p
        do
          let r ←
            if isObjTy vNew && !(obsHas st vNew) then
              makeObservable fuel vNew (strV p) (some f) info.strict st
            else pure (vNew, st)
          match lookHeap r.2 info.raw with
          | some (.record fields1) =>
            let st2 := updHeap r.2 info.raw (.record (fset fields1 p r.1))
            triggerObserver fuel .change f (strV p) r.1 valueOld st2
          | _ => .error .internal
      | _ => .error .internal
termination_by structural fuel

/-- Set trap of the Array proxy (observable.ts lines 371-379), for
canonical index keys (the only array properties the claims touch). -/
def arrSetT (fuel : Nat) (f : Nat) (p : String) (vNew : JSVal) (st : St) :
    Except Err St :=
  match fuel with
  | 0 => .error .fuel
  | fuel + 1 =>
    match lookObs st f with
    | none => .error .internal
    | some info =>
      match lookHeap st info.raw with
      | some (.arr elems) =>
        match p.toNat? with
        | none => .error .internal
        | some i =>
          let valueOld := elems.getD i (.prim .undefined)
          do
            let r ←
              if isObjTy vNew && !(obsHas st vNew) then
                makeObservable fuel vNew (strV p) (some f) info.strict st
              else pure (vNew, st)
            match lookHeap r.2 info.raw with
            | some (.arr elems1) =>
              let st2 := updHeap r.2 info.raw (.arr (aset elems1 i r.1))
              triggerObserver fuel .change f (strV p) r.1 valueOld st2
            | _ => .error .internal
      | _ => .error .internal
termination_by structural fuel

/-- Content pass of the plain-object branch (observable.ts lines
431-433): for each snapshot key whose current value is object-typed, wrap
the value (name the key, parent the facade) and assign the facade back
through the proxy's set trap. -/
def wrapRecFields (fuel : Nat) (f : Nat) (strict : Bool) (ks : List String)
    (st : St) : Except Err St :=
  match fuel with
  | 0 => .error .fuel
  | fuel + 1 =>
    match ks with
    | [] => .ok st
    | k :: ks' =>
      match lookObs st f with
      | none => .error .internal
      | some info =>
        match lookHeap st info.raw with
        | some (.record fields) =>
          let v := fget fields k
          if isObjTy v then do
            let r ← makeObservable fuel v (strV k) (some f) strict st
            let st1 ← recSetT fuel f k r.1 r.2
            wrapRecFields fuel f strict ks' st1
          else wrapRecFields fuel f strict ks' st
        | _ => .error .internal
termination_by structural fuel

/-- Content pass of the Array branch (observable.ts lines 394-397):
index loop reading the live length and element each iteration. -/
def wrapArrIdx (fuel : Nat) (f : Nat) (strict : Bool) (i : Nat) (st : St) :
    Except Err St :=
  match fuel with
  | 0 => .error .fuel
  | fuel + 1 =>
    match lookObs st f with
    | none => .error .internal
    | some info =>
      match lookHeap st info.raw with
      | some (.arr elems) =>
        if i < elems.length then
          let v := elems.getD i (.prim .undefined)
          if isObjTy v then do
            let r ← makeObservable fuel v (strV (toString i)) (some f) strict st
            let st1 ← arrSetT fuel f (toString i) r.1 r.2
            wrapArrIdx fuel f strict (i + 1) st1
          else wrapArrIdx fuel f strict (i + 1) st
        else .ok st
      | _ => .error .internal
termination_by structural fuel

/-- Content pass of the Set branch (observable.ts lines 142-150), over
the snapshot of the members: each object-typed member is deleted and
re-added as its wrapped counterpart (name the empty string), both steps
running through the intercepting wrappers. -/
def wrapSetItems (fuel : Nat) (f : Nat) (strict : Bool) (its : List JSVal)
    (st : St) : Except Err St :=
  match fuel with
  | 0 => .error .fuel
  | fuel + 1 =>
    match its with
    | [] => .ok st
    | it :: its' =>
      if isObjTy it then do
        let st1 ← setDelW fuel f [it] st
        let r ← makeObservable fuel it (strV ("")) (some f) strict st1
        let st2 ← setAddW fuel f [r.1] r.2
        wrapSetItems fuel f strict its' st2
      else wrapSetItems fuel f strict its' st
termination_by structural fuel

/-- Content pass of the Map branch (observable.ts lines 217-225), over
the snapshot of the entries: each entry with an object-typed value is
deleted and re-set to its wrapped counterpart (name the key), both steps
running through the intercepting wrappers; keys are never wrapped. -/
def wrapMapItems (fuel : Nat) (f : Nat) (strict : Bool)
    (its : List (JSVal × JSVal)) (st : St) : Except Err St :=
  match fuel with
  | 0 => .error .fuel
  | fuel + 1 =>
    match its with
    | [] => .ok st
    | (k, it) :: its' =>
      if isObjTy it then do
        let st1 ← mapDelW fuel f [k] st
        let r ← makeObservable fuel it k (some f) strict st1
        let st2 ← mapSetW fuel f [k, r.1] r.2
        wrapMapItems fuel f strict its' st2
      else wrapMapItems fuel f strict its' st
termination_by structural fuel

/-- makeObservable (observable.ts lines 60-441): sanity-check the input
by typeof, short-circuit when the argument already has an entry in the
observable map, then dispatch on the structural kind, registering a fresh
proxy identity and recursively wrapping content.  A null argument passes
the typeof check, misses every instanceof test and makes the prototype
inspection raise a TypeError.  Opaque kinds (Date, RegExp, Error) pass
through unregistered; an unsupported kind raises only in strict mode. -/
def makeObservable (fuel : Nat) (v : JSVal) (name : JSVal)
    (parent : Option Nat) (strict : Bool) (st : St) :
    Except Err (JSVal × St) :=
  match fuel with
  | 0 => .error .fuel
  | fuel + 1 =>
    if !(isObjTy v) then .error .onlyObjects
    else if obsHas st v then .ok (v, st)
    else
      match v with
      | .prim _ => .error .typeError
      | .obj id =>
        match lookHeap st id with
        | none => .error .internal
        | some (.set elems) =>
          let (p, st1) := addInfo st id name parent strict
          do
            let st2 ← wrapSetItems fuel p strict elems st1
            .ok (.obj p, st2)
        | some (.map entries) =>
          let (p, st1) := addInfo st id name parent strict
          do
            let st2 ← wrapMapItems fuel p strict entries st1
            .ok (.obj p, st2)
        | some (.typed _) =>
          let (p, st1) := addInfo st id name parent strict
          .ok (.obj p, st1)
        | some (.arr _) =>
          let (p, st1) := addInfo st id name parent strict
          do
            let st2 ← wrapArrIdx fuel p strict 0 st1
            .ok (.obj p, st2)
        | some (.record fields) =>
          let (p, st1) := addInfo st id name parent strict
          do
            let st2 ← wrapRecFields fuel p strict (fields.map (fun q => q.1)) st1
            .ok (.obj p, st2)
        | some .date => .ok (v, st)
        | some .regexp => .ok (v, st)
        | some .error => .ok (v, st)
        | some .other => if strict then .error .unsupported else .ok (v, st)
termination_by structural fuel

end

/-- observable (observable.ts lines 444-448). -/
def observable (fuel : Nat) (v : JSVal) (strict : Bool) (st : St) :
    Except Err (JSVal × St) :=
  match isObservable st v with
  | .error e => .error e
  | .ok true => .ok (v, st)
  | .ok false => makeObservable fuel v (strV ("")) none strict st

/-- raw (observable.ts lines 458-462). -/
def raw (st : St) (v : JSVal) : Except Err JSVal :=
  match isObservable st v with
  | .error e => .error e
  | .ok false => .error .notObservable
  | .ok true =>
    match v with
    | .obj f =>
      match lookObs st f with
      | some info => .ok (.obj info.raw)
      | none => .error .internal
    | _ => .error .internal

/-- observer, registration part (observable.ts lines 465-474): reject a
non-observable argument and a callback already registered on this facade;
otherwise add the callback with a cleared paused flag. -/
def observer (st : St) (v : JSVal) (cb : Nat) : Except Err St :=
  match isObservable st v with
  | .error e => .error e
  | .ok false => .error .notObservable
  | .ok true =>
    match v with
    | .obj f =>
      match lookObs st f with
      | none => .error .internal
      | some info =>
        if cb ∈ info.callbacks then .error .duplicate
        else .ok (updObs st f
          { info with callbacks := info.callbacks ++ [cb],
                      paused := bset info.paused cb false })
    | _ => .error .internal

/-- handle.pause (observable.ts lines 478-480): sets the paused flag in
the captured info; a JS Map.set cannot fail, so this is total. -/
def obsPause (st : St) (f : Nat) (cb : Nat) : St :=
  match lookObs st f with
  | some info => updObs st f { info with paused := bset info.paused cb true }
  | none => st

/-- handle.resume (lines 481-483): clears the paused flag; total. -/
def obsResume (st : St) (f : Nat) (cb : Nat) : St :=
  match lookObs st f with
  | some info => updObs st f { info with paused := bset info.paused cb false }
  | none => st

/-- handle.destroy (lines 484-488): raises when the callback is not (or
no longer) registered, otherwise removes it. -/
def obsDestroy (st : St) (f : Nat) (cb : Nat) : Except Err St :=
  match lookObs st f with
  | some info =>
    if cb ∈ info.callbacks then
      .ok (updObs st f
        { info with callbacks := info.callbacks.filter (fun c => c ≠ cb) })
    else .error .stale
  | none => .error .stale

/-- The empty initial state. -/
def st0 : St := { heap := [], obs := [], next := 0, log := [] }

instance {ε α : Type} [DecidableEq ε] [DecidableEq α] :
    DecidableEq (Except ε α) := fun a b =>
  match a, b with
  | .ok x, .ok y =>
    if h : x = y then .isTrue (by rw [h])
    else .isFalse (fun hh => by cases hh; exact h rfl)
  | .error e, .error e' =>
    if h : e = e' then .isTrue (by rw [h])
    else .isFalse (fun hh => by cases hh; exact h rfl)
  | .ok _, .error _ => .isFalse (fun hh => by cases hh)
  | .error _, .ok _ => .isFalse (fun hh => by cases hh)

/-- Identity of an object value (scenario glue; only ever applied to
object references). -/
def refId : JSVal → Nat
  | .obj f => f
  | .prim _ => 0

/-- Raw heap for the record of claim C1, laid out as the JS literal
builds it (innermost object first): identifier 2 is the root. -/
def c1st : St :=
  { heap := [(0, .record [("c", numV 1)]),
             (1, .record [("b", .obj 0)]),
             (2, .record [("a", .obj 1)])],
    obs := [], next := 3, log := [] }

/-- The C1 run: wrap the root, register callback 0 on the root facade and
callback 1 on the middle-level facade (the facade of the value at key a),
then set c to 2 through the facades. -/
def c1res : Except Err St := do
  let r ← observable 10 (.obj 2) true c1st
  let stA ← observer r.2 r.1 0
  let mid := recGet stA (refId r.1) ("a")
  let stB ← observer stA mid 1
  let inner := recGet stB (refId mid) ("b")
  recSetT 10 (refId inner) ("c") (numV 2) stB

/-- Raw heap for claim C4: a Map with the single entry k maps to 5. -/
def c4st : St :=
  { heap := [(0, .map [(strV ("k"), numV 5)])], obs := [], next := 1, log := [] }

/-- The C4 run: wrap the map, register callback 0, delete the present
key k (a one-argument call, as every ordinary delete call is). -/
def c4res : Except Err St := do
  let r ← observable 10 (.obj 0) true c4st
  let st2 ← observer r.2 r.1 0
  mapDelW 10 (refId r.1) [strV ("k")] st2

/-- Raw heap for claim C5: the array with elements 7 and 42. -/
def c5st : St :=
  { heap := [(0, .arr [numV 7, numV 42])], obs := [], next := 1, log := [] }

/-- The C5 run: wrap the array, register callback 0, push 9 (append at
end), then pop (remove from end). -/
def c5res : Except Err St := do
  let r ← observable 10 (.obj 0) true c5st
  let st2 ← observer r.2 r.1 0
  let st3 ← arrPushW 10 (refId r.1) [numV 9] st2
  arrPopW 10 (refId r.1) st3

/-- Raw heap for claim C8: the numeric buffer with elements 1, 2, 3. -/
def c8st : St :=
  { heap := [(0, .typed [1, 2, 3])], obs := [], next := 1, log := [] }

/-- The C8 run: wrap the buffer, register callback 0, fill(7, 1, 3). -/
def c8res : Except Err St := do
  let r ← observable 10 (.obj 0) true c8st
  let st2 ← observer r.2 r.1 0
  typedFillW 10 (refId r.1) [numV 7, numV 1, numV 3] st2

/-- Raw heap for claims C2 and C3 (collection side): the record with one
numeric property. -/
def c2st : St :=
  { heap := [(0, .record [("a", numV 1)])], obs := [], next := 1, log := [] }

/-- The C2 run: wrap the raw record twice (both calls receive the raw
value, not the facade). -/
def c2resA : Except Err (JSVal × JSVal) := do
  let r1 ← observable 10 (.obj 0) true c2st
  let r2 ← observable 10 (.obj 0) true r1.2
  pure (r1.1, r2.1)

/-- Raw heap for the opaque side of claims C2 and C3: a Date value. -/
def c3st : St := { heap := [(0, .date)], obs := [], next := 1, log := [] }

/-- Raw heap for the C9 witness: one registered facade (identifier 1)
over an empty record. -/
def c9st : St :=
  { heap := [(0, .record [])],
    obs := [(1, { raw := 0, name := strV (""), parent := none,
                  callbacks := [], paused := [], strict := true })],
    next := 2, log := [] }

/-- The state after registering callback 5 on the facade of c9st. -/
def c9st1 : St :=
  { heap := [(0, .record [])],
    obs := [(1, { raw := 0, name := strV (""), parent := none,
                  callbacks := [5], paused := [(5, false)], strict := true })],
    next := 2, log := [] }

/-- Raw heap for claim C10: an already-wrapped record is prepared from
the record with one numeric property. -/
def c10st : St :=
  { heap := [(0, .record [("p", numV 1)])], obs := [], next := 1, log := [] }

/-- The state produced by wrapping the record of c2st: one facade
(identifier 1) over the raw record (identifier 0). -/
def c2stW : St :=
  { heap := [(0, .record [("a", numV 1)])],
    obs := [(1, { raw := 0, name := strV (""), parent := none,
                  callbacks := [], paused := [], strict := true })],
    next := 2, log := [] }

/-- Member slots of the record assigned in claim C10: one object-typed
member per name, referencing consecutively allocated empty records
starting at a base identity. -/
def memFields (base : Nat) : List String → List (String × JSVal)
  | [] => []
  | s :: r => (s, .obj base) :: memFields (base + 1) r

/-- Heap fragment backing those members: one raw empty record per name
at the consecutive identities. -/
def memHeap (base : Nat) : List String → List (Nat × HObj)
  | [] => []
  | _ :: r => (base, .record []) :: memHeap (base + 1) r

/-- Initial state for claim C10, parametric in the member names: the raw
record (identifier 0) is already wrapped as facade 1 carrying one
registered callback (identifier 0); the heap additionally holds the
record about to be assigned (identifier names.length + 2, one
object-typed member slot per name) and the raw empty records those
members reference (identifiers 2, 3, ...), exactly the layout a nested
object literal allocates before the assignment runs. -/
def c10base (names : List String) : St :=
  { heap := (0, .record [("p", numV 1)]) ::
      (names.length + 2, .record (memFields 2 names)) :: memHeap 2 names,
    obs := [(1, { raw := 0, name := strV (""), parent := none,
                  callbacks := [0], paused := [(0, false)], strict := true })],
    next := names.length + 3, log := [] }

/-- The state of the C10 run right after makeObservable registers the
fresh child facade (identity names.length + 3) over the assigned record,
before the recursive content pass touches the member slots. -/
def c10mid (names : List String) : St :=
  { heap := (0, .record [("p", numV 1)]) ::
      (names.length + 2, .record (memFields 2 names)) :: memHeap 2 names,
    obs := (names.length + 3,
        (⟨names.length + 2, strV ("x"), some 1, [], [], true⟩ : Info)) ::
      [(1, (⟨0, strV (""), none, [0], [(0, false)], true⟩ : Info))],
    next := names.length + 3 + 1, log := [] }

/-- Initial state for claim C7 (coverage part), parametric in the member
names: a raw record (identifier names.length) with one object-typed
member per name, each referencing a raw empty record (identifiers 0, 1,
...); nothing is wrapped yet and no observer exists. -/
def c7base (names : List String) : St :=
  { heap := (names.length, .record (memFields 0 names)) :: memHeap 0 names,
    obs := [], next := names.length + 1, log := [] }

/-- The state of the C7 run right after makeObservable registers the
root facade (identity names.length + 1) over the raw record, before the
recursive content pass touches the member slots. -/
def c7mid (names : List String) : St :=
  { heap := (names.length, .record (memFields 0 names)) :: memHeap 0 names,
    obs := [(names.length + 1,
        (⟨names.length, strV (""), none, [], [], true⟩ : Info))],
    next := names.length + 1 + 1, log := [] }

/-- Raw heap for the C7 counterexample: a map (identifier 1) whose single
entry has a plain-object key (identifier 0) and a primitive value. -/
def c7map : St :=
  { heap := [(0, .record []), (1, .map [(.obj 0, numV 5)])],
    obs := [], next := 2, log := [] }

/-- Keys of an association list. -/
def keysOf {α : Type} (l : List (Nat × α)) : List Nat := l.map Prod.fst

/-- Well-formed state: every registered facade identity and every heap
identity is below the fresh-identity counter.  Every state the source can
reach satisfies this, and every operation below preserves it. -/
def WFst (st : St) : Prop :=
  (∀ k ∈ keysOf st.obs, k < st.next) ∧ (∀ k ∈ keysOf st.heap, k < st.next)

instance (st : St) : Decidable (WFst st) := by
  unfold WFst
  infer_instance

/-- Frame relation between a state and a later state of the same run:
existing registry entries survive untouched, the identity counter only
grows, registry keys are old or fresh, and the heap domain is unchanged
(wrapping mutates contents, never allocates raw objects). -/
def frame (st st' : St) : Prop :=
  (∀ k i, lookObs st k = some i → lookObs st' k = some i) ∧
  st.next ≤ st'.next ∧
  (∀ k, k ∈ keysOf st'.obs → k ∈ keysOf st.obs ∨ st.next ≤ k) ∧
  keysOf st'.heap = keysOf st.heap

/-- Quiet step: registry, counter and heap domain untouched (only heap
contents and the log move), as in every intercepting method wrapper. -/
def quiet (st st' : St) : Prop :=
  st'.obs = st.obs ∧ st'.next = st.next ∧ keysOf st'.heap = keysOf st.heap

/-- Collection-like kinds: the five structural kinds that receive a
proxy facade and a registry entry (in contrast to the opaque pass-through
kinds and unsupported kinds, which are returned unregistered). -/
def isCollKind : HObj → Bool
  | .record _ => true
  | .arr _ => true
  | .set _ => true
  | .map _ => true
  | .typed _ => true
  | _ => false

/-- Unfolding equation for lookup at a cons cell. -/
theorem alook_cons {α : Type} (k1 : Nat) (v1 : α) (r : List (Nat × α)) (k : Nat) :
    alook ((k1, v1) :: r) k = if k1 = k then some v1 else alook r k := rfl

/-- Unfolding equation for update at a cons cell. -/
theorem aupd_cons {α : Type} (k1 : Nat) (v1 : α) (r : List (Nat × α)) (k : Nat) (v : α) :
    aupd ((k1, v1) :: r) k v
      = (if k1 = k then (k, v) else (k1, v1)) :: aupd r k v := rfl

/-- Lookup after updating the same key. -/
theorem alook_aupd_self {α : Type} (l : List (Nat × α)) (k : Nat) (v : α) :
    alook (aupd l k v) k = if (alook l k).isSome then some v else none := by
  induction l with
  | nil => rfl
  | cons p r ih =>
    obtain ⟨k1, v1⟩ := p
    by_cases h : k1 = k
    · subst h
      simp [aupd_cons, alook_cons]
    · simp [aupd_cons, alook_cons, h, ih]

/-- Lookup after updating a different key. -/
theorem alook_aupd_ne {α : Type} (l : List (Nat × α)) (k k' : Nat) (v : α)
    (h : k ≠ k') : alook (aupd l k v) k' = alook l k' := by
  induction l with
  | nil => rfl
  | cons p r ih =>
    obtain ⟨k1, v1⟩ := p
    by_cases hp : k1 = k
    · subst hp
      simp [aupd_cons, alook_cons, h, ih]
    · by_cases hp' : k1 = k'
      · subst hp'
        simp [aupd_cons, alook_cons, hp]
      · simp [aupd_cons, alook_cons, hp, hp', ih]

/-- Updating twice at a key collapses to the second update. -/
theorem aupd_aupd {α : Type} (l : List (Nat × α)) (k : Nat) (v w : α) :
    aupd (aupd l k v) k w = aupd l k w := by
  induction l with
  | nil => rfl
  | cons p r ih =>
    obtain ⟨k1, v1⟩ := p
    by_cases h : k1 = k
    · subst h
      simp [aupd_cons, ih]
    · simp [aupd_cons, h, ih]

/-- A key that does not occur is untouched by an update. -/
theorem aupd_of_alook_none {α : Type} (l : List (Nat × α)) (k : Nat) (v : α)
    (h : alook l k = none) : aupd l k v = l := by
  induction l with
  | nil => rfl
  | cons p r ih =>
    obtain ⟨k1, v1⟩ := p
    rw [alook_cons] at h
    by_cases hp : k1 = k
    · rw [if_pos hp] at h
      exact absurd h (by simp)
    · rw [if_neg hp] at h
      rw [aupd_cons, if_neg hp, ih h]

/-- Lookup in an appended list with the left part missing the key. -/
theorem alook_append_of_none {α : Type} (l l' : List (Nat × α)) (k : Nat)
    (h : alook l k = none) : alook (l ++ l') k = alook l' k := by
  induction l with
  | nil => rfl
  | cons p r ih =>
    obtain ⟨k1, v1⟩ := p
    rw [alook_cons] at h
    by_cases hp : k1 = k
    · rw [if_pos hp] at h
      exact absurd h (by simp)
    · rw [if_neg hp] at h
      rw [List.cons_append, alook_cons, if_neg hp, ih h]

/-- Lookup in an appended list with the key present on the left. -/
theorem alook_append_of_some {α : Type} (l l' : List (Nat × α)) (k : Nat) (v : α)
    (h : alook l k = some v) : alook (l ++ l') k = some v := by
  induction l with
  | nil => simp [alook] at h
  | cons p r ih =>
    obtain ⟨k1, v1⟩ := p
    rw [alook_cons] at h
    rw [List.cons_append, alook_cons]
    by_cases hp : k1 = k
    · rw [if_pos hp] at h ⊢
      exact h
    · rw [if_neg hp] at h ⊢
      exact ih h

/-- Update of an appended list distributes. -/
theorem aupd_append {α : Type} (l l' : List (Nat × α)) (k : Nat) (v : α) :
    aupd (l ++ l') k v = aupd l k v ++ aupd l' k v := by
  unfold aupd
  exact List.map_append _ l l'

/-- Writing a paused flag twice collapses to one write. -/
theorem bset_bset (l : List (Nat × Bool)) (k : Nat) (b : Bool) :
    bset (bset l k b) k b = bset l k b := by
  unfold bset
  by_cases h : (alook l k).isSome
  · rw [if_pos h, alook_aupd_self]
    simp [h, aupd_aupd]
  · rw [if_neg h]
    have hn : alook l k = none := by
      cases hv : alook l k
      · rfl
      · simp [hv] at h
    have h2 : alook (l ++ [(k, b)]) k = some b := by
      rw [alook_append_of_none _ _ _ hn]
      simp [alook_cons]
    rw [h2]
    simp only [Option.isSome_some, if_pos]
    rw [aupd_append, aupd_of_alook_none l k b hn]
    simp [aupd_cons, aupd]

/-- handle.pause is idempotent. -/
theorem obsPause_idem (st : St) (f cb : Nat) :
    obsPause (obsPause st f cb) f cb = obsPause st f cb := by
  unfold obsPause
  cases h : lookObs st f with
  | none => simp [h]
  | some info =>
    simp only [h]
    have h1 : lookObs (updObs st f { info with paused := bset info.paused cb true }) f
        = some { info with paused := bset info.paused cb true } := by
      simp [lookObs, updObs, alook_aupd_self, lookObs] at *
      simp [h]
    simp only [updObs] at h1 ⊢
    simp [h1, bset_bset, aupd_aupd]

/-- handle.resume is idempotent. -/
theorem obsResume_idem (st : St) (f cb : Nat) :
    obsResume (obsResume st f cb) f cb = obsResume st f cb := by
  unfold obsResume
  cases h : lookObs st f with
  | none => simp [h]
  | some info =>
    simp only [h]
    have h1 : lookObs (updObs st f { info with paused := bset info.paused cb false }) f
        = some { info with paused := bset info.paused cb false } := by
      simp [lookObs, updObs, alook_aupd_self] at *
      simp [h]
    simp only [updObs] at h1 ⊢
    simp [h1, bset_bset, aupd_aupd]

/-- destroy of an already-destroyed handle raises the stale error. -/
theorem obsDestroy_obsDestroy (st : St) (f cb : Nat) (st2 : St)
    (h : obsDestroy st f cb = .ok st2) :
    obsDestroy st2 f cb = .error .stale := by
  unfold obsDestroy at h ⊢
  cases hl : lookObs st f with
  | none => simp [hl] at h
  | some info =>
    simp only [hl] at h
    by_cases hm : cb ∈ info.callbacks
    · simp only [hm, if_pos] at h
      have hst2 : st2 = updObs st f
          { info with callbacks := info.callbacks.filter (fun c => c ≠ cb) } := by
        cases h
        rfl
      have h2 : lookObs st2 f = some
          { info with callbacks := info.callbacks.filter (fun c => c ≠ cb) } := by
        rw [hst2]
        simp [lookObs, updObs, alook_aupd_self]
        simp [lookObs] at hl
        simp [hl]
      simp only [h2]
      have : cb ∉ info.callbacks.filter (fun c => c ≠ cb) := by
        intro hc
        have := List.mem_filter.mp hc
        simp at this
      simp [this]
    · simp [hm] at h

/-- C1, counterexample: for the wrapped record with a at the root, with
callback 0 on the root facade and callback 1 on the middle-level facade,
setting c to 2 delivers the middle observer path b.c and the root
observer path a.b.c; the claimed delivery (middle path c, root path b.c)
is what the run refutes. -/
theorem c1_counterexample :
    (c1res.map (fun st => st.log.map (fun q => (q.1, q.2.path))))
      = .ok [(1, strV ("b.c")), (0, strV ("a.b.c"))] ∧
    (c1res.map (fun st => st.log.map (fun q => (q.1, q.2.path))))
      ≠ .ok [(1, strV ("c")), (0, strV ("b.c"))] := by
  constructor
  · rfl
  · decide

/-- C1, amended: the run yields exactly two events, delivered
innermost-first: the middle observer (callback 1) receives kind change
with path b.c and the root observer (callback 0) receives path a.b.c;
both events carry valueOld 1 and valueNew 2. -/
theorem c1_amended :
    c1res.map St.log = .ok
      [(1, { type := .change, target := 4, path := strV ("b.c"),
             valueNew := numV 2, valueOld := numV 1 }),
       (0, { type := .change, target := 3, path := strV ("a.b.c"),
             valueNew := numV 2, valueOld := numV 1 })] := by
  rfl

/-- C4, code evaluated at the failing input: deleting the present key k
(prior value 5) from an observed map fires exactly one event whose path
token is the key and whose valueNew is absent, as claimed, but whose
valueOld is undefined as well (the source forwards the nonexistent second
call argument of delete), not the prior value 5; the entry itself is
removed from the map. -/
theorem c4_bug_eval :
    (c4res.map (fun st => (st.log, lookHeap st 0))) =
      .ok ([(0, { type := .change, target := 1, path := strV ("k"),
                  valueNew := undefV, valueOld := undefV })],
           some (.map [])) ∧
    (undefV ≠ numV 5) := by
  constructor
  · rfl
  · decide

/-- C5, code evaluated at the failing input: on the observed array with
elements 7 and 42, push 9 fires one change event with valueNew 9 and no
valueOld but with path token 3 (the new length, not the new length minus
one, which is 2), and the following pop fires one change event with
valueOld 9 and no valueNew but with path token 3 (the old length, not the
old length minus one, which is 2); the array ends as it began. -/
theorem c5_bug_eval :
    (c5res.map (fun st => (st.log, lookHeap st 0))) =
      .ok ([(0, { type := .change, target := 1, path := strV ("3"),
                  valueNew := numV 9, valueOld := undefV }),
            (0, { type := .change, target := 1, path := strV ("3"),
                  valueNew := undefV, valueOld := numV 9 })],
           some (.arr [numV 7, numV 42])) ∧
    (strV ("3") ≠ strV ("2")) := by
  constructor
  · rfl
  · decide

/-- C8, code evaluated at the failing input: fill(7, 1, 3) on the
observed buffer with elements 1, 2, 3 fires exactly one change event
whose valueOld is a buffer holding 2, 3 and whose valueNew is a buffer
holding 7, 7, and the buffer becomes 1, 7, 7, all as claimed; but the
path delivered to the buffer's own observer is the raw number 1 (the
unconverted second fill argument), not the string form of 1 that the
declared Observation type (path of type string) promises. -/
theorem c8_bug_eval :
    (c8res.map (fun st => (st.log, lookHeap st 0, lookHeap st 2, lookHeap st 3))) =
      .ok ([(0, { type := .change, target := 1, path := numV 1,
                  valueNew := .obj 3, valueOld := .obj 2 })],
           some (.typed [1, 7, 7]), some (.typed [2, 3]), some (.typed [7, 7])) ∧
    (numV 1 ≠ strV ("1")) := by
  constructor
  · rfl
  · decide

/-- C2, counterexample: wrapping the raw record twice yields two distinct
facade identities (the registry is keyed by the facade, not the raw
value), refuting the claimed second-wrap identity; and for a Date value
(a supported opaque kind) the wrap returns the value itself unregistered,
so isWrapped of the wrap result is false, refuting the claimed
isWrapped(wrap(x)) = true for every supported x. -/
theorem c2_counterexample :
    c2resA = .ok (.obj 1, .obj 2) ∧ (JSVal.obj 1 ≠ JSVal.obj 2) ∧
    ((observable 10 (.obj 0) true c3st).map
        (fun r => (r.1, isObservable r.2 r.1)))
      = .ok (.obj 0, .ok false) := by
  refine ⟨by rfl, by decide, by rfl⟩

/-- C3, counterexample: for a Date value, wrap returns the value itself
(pass-through, never registered), and raw on the wrap result raises the
not-an-observable error instead of returning the original value. -/
theorem c3_counterexample :
    ((observable 10 (.obj 0) true c3st).map (fun r => (r.1, raw r.2 r.1)))
      = .ok (.obj 0, .error .notObservable) := by
  rfl

/-- C6, counterexample: isObservable applied to null returns false
without raising any error (typeof null is the string object, and a
WeakMap lookup with a null key simply misses), refuting the claim that
isWrapped raises an input-contract violation for every non-object
input including null; wrap applied to null does raise, but a TypeError
from the prototype inspection, not the input-contract error. -/
theorem c6_counterexample :
    isObservable st0 nullV = .ok false ∧
    observable 10 nullV true st0 = .error .typeError ∧
    observable 10 nullV false st0 = .error .typeError := by
  refine ⟨by rfl, by rfl, by rfl⟩

/-- C6, amended: for every primitive other than null, both wrap and
isWrapped raise the input-contract violation immediately, in strict and
lenient mode alike, and the input is never passed through or registered
(an error carries no successor state); for null, isWrapped returns false
without raising, and wrap raises a TypeError from the prototype
inspection rather than the input-contract error, again in both modes. -/
theorem c6_amended :
    (∀ (q : Prim) (st : St) (strict : Bool) (fuel : Nat), q ≠ .null →
      isObservable st (.prim q) = .error .notAnObject ∧
      observable fuel (.prim q) strict st = .error .notAnObject) ∧
    (∀ (st : St) (strict : Bool) (fuel : Nat),
      isObservable st nullV = .ok false ∧
      observable (fuel + 1) nullV strict st = .error .typeError) := by
  constructor
  · intro q st strict fuel hq
    have hio : isObjTy (.prim q) = false := by
      cases q with
      | null => exact absurd rfl hq
      | undefined => rfl
      | bool b => rfl
      | num n => rfl
      | str s => rfl
    constructor
    · simp [isObservable, hio]
    · simp [observable, isObservable, hio]
  · intro st strict fuel
    constructor
    · simp [isObservable, isObjTy, nullV, obsHas]
    · simp [observable, isObservable, isObjTy, nullV, obsHas, makeObservable]

/-- C6, witness for the amended claim at concrete inputs. -/
theorem c6_witness :
    isObservable st0 (numV 3) = .error .notAnObject ∧
    observable 11 nullV true st0 = .error .typeError := by
  exact ⟨(c6_amended.1 (.num 3) st0 true 11 (by decide)).1,
         (c6_amended.2 st0 true 10).2⟩

/-- C9: registering the same callback twice on one facade raises the
duplicate-registration error and leaves the registry unchanged (in this
embedding an error carries no successor state, exactly as the source
throws before mutating), destroying an already-destroyed handle raises
the stale-handle error, and pause and resume are idempotent and never
raise on redundant calls (both are total functions on states). -/
theorem c9_observer_guards (st : St) (f cb : Nat) (st1 : St)
    (hreg : observer st (.obj f) cb = .ok st1) :
    observer st1 (.obj f) cb = .error .duplicate ∧
    (∀ st2, obsDestroy st1 f cb = .ok st2 → obsDestroy st2 f cb = .error .stale) ∧
    (∀ (st' : St) (g c : Nat), obsPause (obsPause st' g c) g c = obsPause st' g c) ∧
    (∀ (st' : St) (g c : Nat), obsResume (obsResume st' g c) g c = obsResume st' g c) := by
  cases hl : lookObs st f with
  | none =>
    exfalso
    simp [observer, isObservable, isObjTy, obsHas, hl] at hreg
  | some info =>
    by_cases hm : cb ∈ info.callbacks
    · exfalso
      simp [observer, isObservable, isObjTy, obsHas, hl, hm] at hreg
    · have hst1 : st1 = updObs st f
          { info with callbacks := info.callbacks ++ [cb],
                      paused := bset info.paused cb false } := by
        simp [observer, isObservable, isObjTy, obsHas, hl, hm] at hreg
        exact hreg.symm
      have hl1 : lookObs st1 f = some
          { info with callbacks := info.callbacks ++ [cb],
                      paused := bset info.paused cb false } := by
        rw [hst1]
        show alook (aupd st.obs f _) f = _
        rw [alook_aupd_self]
        simp [lookObs] at hl
        simp [hl]
      refine ⟨?_, ?_, ?_, ?_⟩
      · simp [observer, isObservable, isObjTy, obsHas, hl1]
      · intro st2 h2
        exact obsDestroy_obsDestroy st1 f cb st2 h2
      · intro st' g c
        exact obsPause_idem st' g c
      · intro st' g c
        exact obsResume_idem st' g c

/-- C9, witness: the guards evaluated on the concrete one-facade state. -/
theorem c9_witness : observer c9st1 (.obj 1) 5 = .error .duplicate := by
  exact (c9_observer_guards c9st 1 5 c9st1 (by rfl)).1

/-- Update preserves the key list. -/
theorem keysOf_aupd {α : Type} (l : List (Nat × α)) (k : Nat) (v : α) :
    keysOf (aupd l k v) = keysOf l := by
  induction l with
  | nil => rfl
  | cons p r ih =>
    obtain ⟨k1, v1⟩ := p
    by_cases h : k1 = k
    · rw [aupd_cons, if_pos h, h]
      show k :: keysOf (aupd r k v) = k :: keysOf r
      rw [ih]
    · rw [aupd_cons, if_neg h]
      show k1 :: keysOf (aupd r k v) = k1 :: keysOf r
      rw [ih]

/-- Presence of a key as a lookup fact. -/
theorem alook_isSome_of_mem_keys {α : Type} (l : List (Nat × α)) (k : Nat)
    (h : (alook l k).isSome) : k ∈ keysOf l := by
  induction l with
  | nil => simp [alook] at h
  | cons p r ih =>
    obtain ⟨k1, v1⟩ := p
    rw [alook_cons] at h
    by_cases hp : k1 = k
    · subst hp
      simp [keysOf]
    · rw [if_neg hp] at h
      simp [keysOf]
      exact Or.inr (by simpa [keysOf] using ih h)

/-- Membership in the key list as a lookup fact. -/
theorem mem_keys_of_alook_some {α : Type} (l : List (Nat × α)) (k : Nat) (i : α)
    (h : alook l k = some i) : k ∈ keysOf l :=
  alook_isSome_of_mem_keys l k (by rw [h]; rfl)

/-- The frame relation is reflexive. -/
theorem frame_refl (st : St) : frame st st :=
  ⟨fun _ _ h => h, le_refl _, fun _ hk => Or.inl hk, rfl⟩

/-- The frame relation is transitive. -/
theorem frame_trans {s1 s2 s3 : St} (h1 : frame s1 s2) (h2 : frame s2 s3) :
    frame s1 s3 := by
  obtain ⟨o1, n1, k1, hh1⟩ := h1
  obtain ⟨o2, n2, k2, hh2⟩ := h2
  refine ⟨fun k i h => o2 k i (o1 k i h), le_trans n1 n2, fun k hk => ?_,
          by rw [hh2, hh1]⟩
  rcases k2 k hk with h | h
  · exact k1 k h
  · exact Or.inr (le_trans n1 h)

/-- A quiet step is a frame step. -/
theorem quiet_frame {st st' : St} (h : quiet st st') : frame st st' := by
  obtain ⟨ho, hn, hh⟩ := h
  refine ⟨fun k i hk => ?_, by rw [hn], fun k hk => Or.inl ?_, hh⟩
  · show alook st'.obs k = some i
    rw [ho]
    exact hk
  · show k ∈ keysOf st.obs
    rw [← ho]
    exact hk

/-- A quiet step preserves well-formedness. -/
theorem quiet_wfst {st st' : St} (h : quiet st st') (hw : WFst st) : WFst st' := by
  obtain ⟨ho, hn, hh⟩ := h
  constructor
  · intro k hk
    rw [ho] at hk
    rw [hn]
    exact hw.1 k hk
  · intro k hk
    rw [hh] at hk
    rw [hn]
    exact hw.2 k hk

/-- Heap content updates are quiet. -/
theorem updHeap_quiet (st : St) (id : Nat) (h : HObj) :
    quiet st (updHeap st id h) := by
  refine ⟨rfl, rfl, ?_⟩
  show keysOf (aupd st.heap id h) = keysOf st.heap
  exact keysOf_aupd _ _ _

/-- Appending to the log is quiet. -/
theorem log_quiet (st : St) (l : List (Nat × Event)) :
    quiet st { st with log := st.log ++ l } := ⟨rfl, rfl, rfl⟩

/-- Quiet steps compose. -/
theorem quiet_trans {s1 s2 s3 : St} (h1 : quiet s1 s2) (h2 : quiet s2 s3) :
    quiet s1 s3 := by
  obtain ⟨a1, b1, c1⟩ := h1
  obtain ⟨a2, b2, c2⟩ := h2
  exact ⟨by rw [a2, a1], by rw [b2, b1], by rw [c2, c1]⟩

/-- triggerObserver only appends to the log. -/
theorem trigger_quiet (fuel : Nat) (type : EvType) (target : Nat)
    (path valueNew valueOld : JSVal) (st st' : St)
    (h : triggerObserver fuel type target path valueNew valueOld st = .ok st') :
    st'.obs = st.obs ∧ st'.heap = st.heap ∧ st'.next = st.next ∧
    ∃ l, st'.log = st.log ++ l := by
  induction fuel generalizing target path st with
  | zero => simp [triggerObserver] at h
  | succ fuel ih =>
    rw [triggerObserver] at h
    split at h
    · simp at h
    · rename_i info _
      split at h
      · simp at h
        obtain rfl := h.symm
        exact ⟨rfl, rfl, rfl, ⟨_, rfl⟩⟩
      · rename_i p _
        have := ih p _ _ h
        obtain ⟨ho, hh, hn, l, hl2⟩ := this
        refine ⟨ho, hh, hn,
                ⟨deliver info target type path valueNew valueOld ++ l, ?_⟩⟩
        rw [hl2]
        simp

/-- Bind reduction for ok results. -/
theorem ebind_ok {ε α β : Type} (a : α) (f : α → Except ε β) :
    (Except.ok a >>= f) = f a := rfl

/-- Bind reduction for errors. -/
theorem ebind_err {ε α β : Type} (e : ε) (f : α → Except ε β) :
    ((Except.error e : Except ε α) >>= f) = .error e := rfl

/-- Bind reduction for pure. -/
theorem epure_bind {ε α β : Type} (a : α) (f : α → Except ε β) :
    ((pure a : Except ε α) >>= f) = f a := rfl

/-- triggerObserver is a quiet step. -/
theorem trigger_quiet' {fuel : Nat} {type : EvType} {target : Nat}
    {path valueNew valueOld : JSVal} {st st' : St}
    (h : triggerObserver fuel type target path valueNew valueOld st = .ok st') :
    quiet st st' := by
  obtain ⟨ho, hh, hn, _⟩ := trigger_quiet fuel type target path valueNew valueOld st st' h
  exact ⟨ho, hn, by rw [hh]⟩

/-- The Set add wrapper is a quiet step. -/
theorem setAddW_quiet {fuel f : Nat} {args : List JSVal} {st st' : St}
    (h : setAddW fuel f args st = .ok st') : quiet st st' := by
  unfold setAddW at h
  split at h
  · simp at h
  · split at h
    · exact quiet_trans (updHeap_quiet _ _ _) (trigger_quiet' h)
    · simp at h

/-- The Set delete wrapper is a quiet step. -/
theorem setDelW_quiet {fuel f : Nat} {args : List JSVal} {st st' : St}
    (h : setDelW fuel f args st = .ok st') : quiet st st' := by
  unfold setDelW at h
  split at h
  · simp at h
  · split at h
    · exact quiet_trans (updHeap_quiet _ _ _) (trigger_quiet' h)
    · simp at h

/-- The Map set wrapper is a quiet step. -/
theorem mapSetW_quiet {fuel f : Nat} {args : List JSVal} {st st' : St}
    (h : mapSetW fuel f args st = .ok st') : quiet st st' := by
  unfold mapSetW at h
  split at h
  · simp at h
  · split at h
    · exact quiet_trans (updHeap_quiet _ _ _) (trigger_quiet' h)
    · simp at h

/-- The Map delete wrapper is a quiet step. -/
theorem mapDelW_quiet {fuel f : Nat} {args : List JSVal} {st st' : St}
    (h : mapDelW fuel f args st = .ok st') : quiet st st' := by
  unfold mapDelW at h
  split at h
  · simp at h
  · split at h
    · exact quiet_trans (updHeap_quiet _ _ _) (trigger_quiet' h)
    · simp at h

/-- Registration of a fresh entry keyed by the current counter: a frame
step that preserves well-formedness and whose entry is retrievable.  The
addInfo call sites reduce definitionally to this shape. -/
theorem obs_prepend_step (st : St) (i0 : Info) (hw : WFst st) :
    frame st { st with obs := (st.next, i0) :: st.obs, next := st.next + 1 } ∧
    WFst { st with obs := (st.next, i0) :: st.obs, next := st.next + 1 } ∧
    lookObs { st with obs := (st.next, i0) :: st.obs, next := st.next + 1 }
      st.next = some i0 := by
  refine ⟨⟨?_, Nat.le_succ _, ?_, rfl⟩, ⟨?_, ?_⟩, ?_⟩
  · intro k i hk
    show alook ((st.next, i0) :: st.obs) k = some i
    rw [alook_cons]
    have hk' : k ∈ keysOf st.obs := mem_keys_of_alook_some _ _ _ hk
    have hne : st.next ≠ k := fun he => absurd (hw.1 k hk') (by rw [he]; simp)
    rw [if_neg hne]
    exact hk
  · intro k hk
    have hk' : k ∈ st.next :: keysOf st.obs := hk
    rcases List.mem_cons.mp hk' with he | hm
    · exact Or.inr (le_of_eq he.symm)
    · exact Or.inl hm
  · intro k hk
    have hk' : k ∈ st.next :: keysOf st.obs := hk
    rcases List.mem_cons.mp hk' with he | hm
    · rw [he]
      exact Nat.lt_succ_self _
    · exact Nat.lt_succ_of_lt (hw.1 k hm)
  · intro k hk
    exact Nat.lt_succ_of_lt (hw.2 k hk)
  · show alook ((st.next, i0) :: st.obs) st.next = some i0
    rw [alook_cons, if_pos rfl]

/-- Frame and well-formedness preservation for the whole wrapping family,
by one induction on the fuel: makeObservable, both set traps and the four
content passes preserve existing registry entries, only create fresh
registry keys, never touch the heap domain, and keep states
well-formed. -/
theorem frame_mutual : ∀ fuel : Nat,
    (∀ v name parent strict st w st', WFst st →
      makeObservable fuel v name parent strict st = .ok (w, st') →
      frame st st' ∧ WFst st') ∧
    (∀ f p vNew st st', WFst st →
      recSetT fuel f p vNew st = .ok st' → frame st st' ∧ WFst st') ∧
    (∀ f p vNew st st', WFst st →
      arrSetT fuel f p vNew st = .ok st' → frame st st' ∧ WFst st') ∧
    (∀ f strict ks st st', WFst st →
      wrapRecFields fuel f strict ks st = .ok st' → frame st st' ∧ WFst st') ∧
    (∀ f strict i st st', WFst st →
      wrapArrIdx fuel f strict i st = .ok st' → frame st st' ∧ WFst st') ∧
    (∀ f strict its st st', WFst st →
      wrapSetItems fuel f strict its st = .ok st' → frame st st' ∧ WFst st') ∧
    (∀ f strict its st st', WFst st →
      wrapMapItems fuel f strict its st = .ok st' → frame st st' ∧ WFst st') := by
  intro fuel
  induction fuel with
  | zero =>
    refine ⟨?_, ?_, ?_, ?_, ?_, ?_, ?_⟩
    · intro v name parent strict st w st' _ h
      simp [makeObservable] at h
    · intro f p vNew st st' _ h
      simp [recSetT] at h
    · intro f p vNew st st' _ h
      simp [arrSetT] at h
    · intro f strict ks st st' _ h
      simp [wrapRecFields] at h
    · intro f strict i st st' _ h
      simp [wrapArrIdx] at h
    · intro f strict its st st' _ h
      simp [wrapSetItems] at h
    · intro f strict its st st' _ h
      simp [wrapMapItems] at h
  | succ fuel ih =>
    obtain ⟨ihMake, ihRec, ihArr, ihWR, ihWA, ihWS, ihWM⟩ := ih
    have hRec : ∀ f p vNew st st', WFst st →
        recSetT (fuel + 1) f p vNew st = .ok st' → frame st st' ∧ WFst st' := by
      intro f p vNew st st' hw h
      rw [recSetT] at h
      split at h
      · simp at h
      · rename_i info _
        split at h
        · rename_i fields _
          split at h
          · cases hm : makeObservable fuel vNew (strV p) (some f) info.strict st with
            | error e =>
              rw [hm, ebind_err] at h
              simp at h
            | ok r =>
              rw [hm, ebind_ok] at h
              beta_reduce at h
              split at h
              · rename_i fields1 _
                have h1 := ihMake vNew (strV p) (some f) info.strict st r.1 r.2 hw (by rw [hm])
                have hq := quiet_trans (updHeap_quiet r.2 info.raw _) (trigger_quiet' h)
                exact ⟨frame_trans h1.1 (quiet_frame hq), quiet_wfst hq h1.2⟩
              · simp at h
          · rw [epure_bind] at h
            beta_reduce at h
            split at h
            · rename_i fields1 _
              have hq := quiet_trans (updHeap_quiet st info.raw _) (trigger_quiet' h)
              exact ⟨quiet_frame hq, quiet_wfst hq hw⟩
            · simp at h
        · simp at h
    have hArr : ∀ f p vNew st st', WFst st →
        arrSetT (fuel + 1) f p vNew st = .ok st' → frame st st' ∧ WFst st' := by
      intro f p vNew st st' hw h
      rw [arrSetT] at h
      split at h
      · simp at h
      · rename_i info _
        split at h
        · rename_i elems _
          split at h
          · simp at h
          · rename_i i _
            split at h
            · cases hm : makeObservable fuel vNew (strV p) (some f) info.strict st with
              | error e =>
                rw [hm, ebind_err] at h
                simp at h
              | ok r =>
                rw [hm, ebind_ok] at h
                beta_reduce at h
                split at h
                · rename_i elems1 _
                  have h1 := ihMake vNew (strV p) (some f) info.strict st r.1 r.2 hw (by rw [hm])
                  have hq := quiet_trans (updHeap_quiet r.2 info.raw _) (trigger_quiet' h)
                  exact ⟨frame_trans h1.1 (quiet_frame hq), quiet_wfst hq h1.2⟩
                · simp at h
            · rw [epure_bind] at h
              beta_reduce at h
              split at h
              · rename_i elems1 _
                have hq := quiet_trans (updHeap_quiet st info.raw _) (trigger_quiet' h)
                exact ⟨quiet_frame hq, quiet_wfst hq hw⟩
              · simp at h
        · simp at h
    have hWR : ∀ f strict ks st st', WFst st →
        wrapRecFields (fuel + 1) f strict ks st = .ok st' → frame st st' ∧ WFst st' := by
      intro f strict ks st st' hw h
      cases ks with
      | nil =>
        rw [wrapRecFields] at h
        simp at h
        obtain rfl := h
        exact ⟨frame_refl _, hw⟩
      | cons k ks' =>
        rw [wrapRecFields] at h
        split at h
        · simp at h
        · rename_i info _
          split at h
          · rename_i fields _
            unfold_let at h
            split at h
            · cases hm : makeObservable fuel (fget fields k) (strV k) (some f) strict st with
              | error e =>
                rw [hm, ebind_err] at h
                simp at h
              | ok r =>
                rw [hm, ebind_ok] at h
                cases hs : recSetT fuel f k r.1 r.2 with
                | error e =>
                  rw [hs, ebind_err] at h
                  simp at h
                | ok st1 =>
                  rw [hs, ebind_ok] at h
                  have h1 := ihMake _ _ _ _ _ r.1 r.2 hw (by rw [hm])
                  have h2 := ihRec f k r.1 r.2 st1 h1.2 hs
                  have h3 := ihWR f strict ks' st1 st' h2.2 h
                  exact ⟨frame_trans h1.1 (frame_trans h2.1 h3.1), h3.2⟩
            · exact ihWR f strict ks' st st' hw h
          · simp at h
    have hWA : ∀ f strict i st st', WFst st →
        wrapArrIdx (fuel + 1) f strict i st = .ok st' → frame st st' ∧ WFst st' := by
      intro f strict i st st' hw h
      rw [wrapArrIdx] at h
      split at h
      · simp at h
      · rename_i info _
        split at h
        · rename_i elems _
          unfold_let at h
          split at h
          · split at h
            · cases hm : makeObservable fuel (elems.getD i (.prim .undefined))
                  (strV (toString i)) (some f) strict st with
              | error e =>
                rw [hm, ebind_err] at h
                simp at h
              | ok r =>
                rw [hm, ebind_ok] at h
                cases hs : arrSetT fuel f (toString i) r.1 r.2 with
                | error e =>
                  rw [hs, ebind_err] at h
                  simp at h
                | ok st1 =>
                  rw [hs, ebind_ok] at h
                  have h1 := ihMake _ _ _ _ _ r.1 r.2 hw (by rw [hm])
                  have h2 := ihArr f (toString i) r.1 r.2 st1 h1.2 hs
                  have h3 := ihWA f strict (i + 1) st1 st' h2.2 h
                  exact ⟨frame_trans h1.1 (frame_trans h2.1 h3.1), h3.2⟩
            · exact ihWA f strict (i + 1) st st' hw h
          · simp at h
            obtain rfl := h
            exact ⟨frame_refl _, hw⟩
        · simp at h
    have hWS : ∀ f strict its st st', WFst st →
        wrapSetItems (fuel + 1) f strict its st = .ok st' → frame st st' ∧ WFst st' := by
      intro f strict its st st' hw h
      cases its with
      | nil =>
        rw [wrapSetItems] at h
        simp at h
        obtain rfl := h
        exact ⟨frame_refl _, hw⟩
      | cons it its' =>
        rw [wrapSetItems] at h
        split at h
        · cases hd : setDelW fuel f [it] st with
          | error e =>
            rw [hd, ebind_err] at h
            simp at h
          | ok st1 =>
            rw [hd, ebind_ok] at h
            cases hm : makeObservable fuel it (strV ("")) (some f) strict st1 with
            | error e =>
              rw [hm, ebind_err] at h
              simp at h
            | ok r =>
              rw [hm, ebind_ok] at h
              cases ha : setAddW fuel f [r.1] r.2 with
              | error e =>
                rw [ha, ebind_err] at h
                simp at h
              | ok st2 =>
                rw [ha, ebind_ok] at h
                have hq1 := setDelW_quiet hd
                have h1 := ihMake _ _ _ _ _ r.1 r.2 (quiet_wfst hq1 hw) (by rw [hm])
                have hq2 := setAddW_quiet ha
                have h3 := ihWS f strict its' st2 st' (quiet_wfst hq2 h1.2) h
                exact ⟨frame_trans (quiet_frame hq1)
                        (frame_trans h1.1 (frame_trans (quiet_frame hq2) h3.1)), h3.2⟩
        · exact ihWS f strict its' st st' hw h
    have hWM : ∀ f strict its st st', WFst st →
        wrapMapItems (fuel + 1) f strict its st = .ok st' → frame st st' ∧ WFst st' := by
      intro f strict its st st' hw h
      cases its with
      | nil =>
        rw [wrapMapItems] at h
        simp at h
        obtain rfl := h
        exact ⟨frame_refl _, hw⟩
      | cons kit its' =>
        obtain ⟨k, it⟩ := kit
        rw [wrapMapItems] at h
        split at h
        · cases hd : mapDelW fuel f [k] st with
          | error e =>
            rw [hd, ebind_err] at h
            simp at h
          | ok st1 =>
            rw [hd, ebind_ok] at h
            cases hm : makeObservable fuel it k (some f) strict st1 with
            | error e =>
              rw [hm, ebind_err] at h
              simp at h
            | ok r =>
              rw [hm, ebind_ok] at h
              cases ha : mapSetW fuel f [k, r.1] r.2 with
              | error e =>
                rw [ha, ebind_err] at h
                simp at h
              | ok st2 =>
                rw [ha, ebind_ok] at h
                have hq1 := mapDelW_quiet hd
                have h1 := ihMake _ _ _ _ _ r.1 r.2 (quiet_wfst hq1 hw) (by rw [hm])
                have hq2 := mapSetW_quiet ha
                have h3 := ihWM f strict its' st2 st' (quiet_wfst hq2 h1.2) h
                exact ⟨frame_trans (quiet_frame hq1)
                        (frame_trans h1.1 (frame_trans (quiet_frame hq2) h3.1)), h3.2⟩
        · exact ihWM f strict its' st st' hw h
    have hMake : ∀ v name parent strict st w st', WFst st →
        makeObservable (fuel + 1) v name parent strict st = .ok (w, st') →
        frame st st' ∧ WFst st' := by
      intro v name parent strict st w st' hw h
      cases v with
      | prim q =>
        rw [makeObservable] at h
        split at h
        · simp at h
        · split at h
          · simp at h
            obtain ⟨_, rfl⟩ := h
            exact ⟨frame_refl _, hw⟩
          · simp at h
      | obj id =>
        rw [makeObservable] at h
        split at h
        · simp at h
        · split at h
          · simp at h
            obtain ⟨_, rfl⟩ := h
            exact ⟨frame_refl _, hw⟩
          · split at h
            · simp at h
            · rename_i elems _
              split at h
              rename_i p st1 heq
              have h0 : (st.next, ({ st with
                  obs := (st.next, (⟨id, name, parent, [], [], strict⟩ : Info)) :: st.obs,
                  next := st.next + 1 } : St)) = (p, st1) := heq
              injection h0 with h1 h2
              have hpre := obs_prepend_step st ⟨id, name, parent, [], [], strict⟩ hw
              cases hws : wrapSetItems fuel p strict elems st1 with
              | error e =>
                rw [hws, ebind_err] at h
                simp at h
              | ok st2 =>
                rw [hws, ebind_ok] at h
                simp at h
                obtain ⟨_, rfl⟩ := h
                have hws' := ihWS p strict elems st1 st2 (h2 ▸ hpre.2.1) hws
                exact ⟨frame_trans (h2 ▸ hpre.1) hws'.1, hws'.2⟩
            · rename_i entries _
              split at h
              rename_i p st1 heq
              have h0 : (st.next, ({ st with
                  obs := (st.next, (⟨id, name, parent, [], [], strict⟩ : Info)) :: st.obs,
                  next := st.next + 1 } : St)) = (p, st1) := heq
              injection h0 with h1 h2
              have hpre := obs_prepend_step st ⟨id, name, parent, [], [], strict⟩ hw
              cases hwm : wrapMapItems fuel p strict entries st1 with
              | error e =>
                rw [hwm, ebind_err] at h
                simp at h
              | ok st2 =>
                rw [hwm, ebind_ok] at h
                simp at h
                obtain ⟨_, rfl⟩ := h
                have hwm' := ihWM p strict entries st1 st2 (h2 ▸ hpre.2.1) hwm
                exact ⟨frame_trans (h2 ▸ hpre.1) hwm'.1, hwm'.2⟩
            · split at h
              rename_i p st1 heq
              have h0 : (st.next, ({ st with
                  obs := (st.next, (⟨id, name, parent, [], [], strict⟩ : Info)) :: st.obs,
                  next := st.next + 1 } : St)) = (p, st1) := heq
              injection h0 with h1 h2
              have hpre := obs_prepend_step st ⟨id, name, parent, [], [], strict⟩ hw
              simp at h
              obtain ⟨_, rfl⟩ := h
              exact ⟨h2 ▸ hpre.1, h2 ▸ hpre.2.1⟩
            · split at h
              rename_i p st1 heq
              have h0 : (st.next, ({ st with
                  obs := (st.next, (⟨id, name, parent, [], [], strict⟩ : Info)) :: st.obs,
                  next := st.next + 1 } : St)) = (p, st1) := heq
              injection h0 with h1 h2
              have hpre := obs_prepend_step st ⟨id, name, parent, [], [], strict⟩ hw
              cases hwa : wrapArrIdx fuel p strict 0 st1 with
              | error e =>
                rw [hwa, ebind_err] at h
                simp at h
              | ok st2 =>
                rw [hwa, ebind_ok] at h
                simp at h
                obtain ⟨_, rfl⟩ := h
                have hwa' := ihWA p strict 0 st1 st2 (h2 ▸ hpre.2.1) hwa
                exact ⟨frame_trans (h2 ▸ hpre.1) hwa'.1, hwa'.2⟩
            · rename_i fields _
              split at h
              rename_i p st1 heq
              have h0 : (st.next, ({ st with
                  obs := (st.next, (⟨id, name, parent, [], [], strict⟩ : Info)) :: st.obs,
                  next := st.next + 1 } : St)) = (p, st1) := heq
              injection h0 with h1 h2
              have hpre := obs_prepend_step st ⟨id, name, parent, [], [], strict⟩ hw
              cases hwr : wrapRecFields fuel p strict (fields.map (fun q => q.1)) st1 with
              | error e =>
                rw [hwr, ebind_err] at h
                simp at h
              | ok st2 =>
                rw [hwr, ebind_ok] at h
                simp at h
                obtain ⟨_, rfl⟩ := h
                have hwr' := ihWR p strict (fields.map (fun q => q.1)) st1 st2
                  (h2 ▸ hpre.2.1) hwr
                exact ⟨frame_trans (h2 ▸ hpre.1) hwr'.1, hwr'.2⟩
            · simp at h
              obtain ⟨_, rfl⟩ := h
              exact ⟨frame_refl _, hw⟩
            · simp at h
              obtain ⟨_, rfl⟩ := h
              exact ⟨frame_refl _, hw⟩
            · simp at h
              obtain ⟨_, rfl⟩ := h
              exact ⟨frame_refl _, hw⟩
            · split at h
              · simp at h
              · simp at h
                obtain ⟨_, rfl⟩ := h
                exact ⟨frame_refl _, hw⟩
    exact ⟨hMake, hRec, hArr, hWR, hWA, hWS, hWM⟩

/-- Absent key is exactly non-membership in the key list. -/
theorem alook_eq_none_iff {α : Type} (l : List (Nat × α)) (k : Nat) :
    alook l k = none ↔ k ∉ keysOf l := by
  induction l with
  | nil => simp [alook, keysOf]
  | cons p r ih =>
    obtain ⟨k1, v1⟩ := p
    rw [alook_cons]
    by_cases h : k1 = k
    · subst h
      simp [keysOf]
    · rw [if_neg h]
      have hk : keysOf ((k1, v1) :: r) = k1 :: keysOf r := rfl
      rw [hk, ih]
      constructor
      · intro hnk hmem
        rcases List.mem_cons.mp hmem with he | hm
        · exact h he.symm
        · exact hnk hm
      · intro hnk hmem
        exact hnk (List.mem_cons_of_mem _ hmem)

/-- Frame component of the mutual induction for makeObservable. -/
theorem make_frame {fuel : Nat} {v name : JSVal} {parent : Option Nat}
    {strict : Bool} {st : St} {w : JSVal} {st' : St} (hw : WFst st)
    (h : makeObservable fuel v name parent strict st = .ok (w, st')) :
    frame st st' ∧ WFst st' :=
  (frame_mutual fuel).1 v name parent strict st w st' hw h

/-- Shape of a successful makeObservable call on an unregistered object:
either the object is of a collection-like kind, in which case a fresh
facade (the old counter value) is registered with exactly the given
name and parent and an empty callback set, the raw object itself stays
unregistered and the old registry is preserved; or the call was an
unregistered pass-through (opaque kind, or unsupported in lenient mode)
returning the value itself with the state unchanged. -/
theorem make_shape (fuel : Nat) (id : Nat) (name : JSVal) (parent : Option Nat)
    (strict : Bool) (st : St) (w : JSVal) (st' : St)
    (hw : WFst st) (hun : lookObs st id = none)
    (h : makeObservable fuel (.obj id) name parent strict st = .ok (w, st')) :
    (∃ hob, lookHeap st id = some hob ∧ isCollKind hob = true ∧
      w = .obj st.next ∧
      lookObs st' st.next = some
        { raw := id, name := name, parent := parent,
          callbacks := [], paused := [], strict := strict } ∧
      frame st st' ∧ WFst st' ∧ st.next < st'.next ∧ lookObs st' id = none) ∨
    (w = .obj id ∧ st' = st ∧
      ∀ hob2, lookHeap st id = some hob2 → isCollKind hob2 = false) := by
  cases fuel with
  | zero => simp [makeObservable] at h
  | succ fuel =>
    rw [makeObservable] at h
    split at h
    · simp at h
    · split at h
      · rename_i hcond
        rw [show obsHas st (.obj id) = (lookObs st id).isSome from rfl, hun] at hcond
        simp at hcond
      · split at h
        · simp at h
        · rename_i elems hheap
          split at h
          rename_i p st1 heq
          have h0 : (st.next, ({ st with
              obs := (st.next, (⟨id, name, parent, [], [], strict⟩ : Info)) :: st.obs,
              next := st.next + 1 } : St)) = (p, st1) := heq
          injection h0 with h1 h2
          have hpre := obs_prepend_step st
            (⟨id, name, parent, [], [], strict⟩ : Info) hw
          cases hws : wrapSetItems fuel p strict elems st1 with
          | error e =>
            rw [hws, ebind_err] at h
            simp at h
          | ok st2 =>
            rw [hws, ebind_ok] at h
            simp at h
            obtain ⟨hwp, rfl⟩ := h
            have hloop := (frame_mutual fuel).2.2.2.2.2.1 p strict elems st1 st2
              (h2 ▸ hpre.2.1) hws
            have hfr : frame st st2 := frame_trans (h2 ▸ hpre.1) hloop.1
            have hlook : lookObs st2 st.next = some
                { raw := id, name := name, parent := parent,
                  callbacks := [], paused := [], strict := strict } :=
              hloop.1.1 st.next _ (h2 ▸ hpre.2.2)
            have hlt : st.next < st2.next := by
              have ha : st.next < st1.next := by
                rw [← h2]
                exact Nat.lt_succ_self _
              exact Nat.lt_of_lt_of_le ha hloop.1.2.1
            have hidn : lookObs st2 id = none := by
              refine (alook_eq_none_iff st2.obs id).mpr ?_
              intro hmem
              rcases hfr.2.2.1 id hmem with hold | hge
              · exact absurd hold ((alook_eq_none_iff st.obs id).mp hun)
              · have : id < st.next := hw.2 id (mem_keys_of_alook_some _ _ _ hheap)
                omega
            refine Or.inl ⟨.set elems, hheap, rfl, ?_, hlook, hfr, hloop.2, hlt, hidn⟩
            rw [← hwp, h1]
        · rename_i entries hheap
          split at h
          rename_i p st1 heq
          have h0 : (st.next, ({ st with
              obs := (st.next, (⟨id, name, parent, [], [], strict⟩ : Info)) :: st.obs,
              next := st.next + 1 } : St)) = (p, st1) := heq
          injection h0 with h1 h2
          have hpre := obs_prepend_step st
            (⟨id, name, parent, [], [], strict⟩ : Info) hw
          cases hws : wrapMapItems fuel p strict entries st1 with
          | error e =>
            rw [hws, ebind_err] at h
            simp at h
          | ok st2 =>
            rw [hws, ebind_ok] at h
            simp at h
            obtain ⟨hwp, rfl⟩ := h
            have hloop := (frame_mutual fuel).2.2.2.2.2.2 p strict entries st1 st2
              (h2 ▸ hpre.2.1) hws
            have hfr : frame st st2 := frame_trans (h2 ▸ hpre.1) hloop.1
            have hlook : lookObs st2 st.next = some
                { raw := id, name := name, parent := parent,
                  callbacks := [], paused := [], strict := strict } :=
              hloop.1.1 st.next _ (h2 ▸ hpre.2.2)
            have hlt : st.next < st2.next := by
              have ha : st.next < st1.next := by
                rw [← h2]
                exact Nat.lt_succ_self _
              exact Nat.lt_of_lt_of_le ha hloop.1.2.1
            have hidn : lookObs st2 id = none := by
              refine (alook_eq_none_iff st2.obs id).mpr ?_
              intro hmem
              rcases hfr.2.2.1 id hmem with hold | hge
              · exact absurd hold ((alook_eq_none_iff st.obs id).mp hun)
              · have : id < st.next := hw.2 id (mem_keys_of_alook_some _ _ _ hheap)
                omega
            refine Or.inl ⟨.map entries, hheap, rfl, ?_, hlook, hfr, hloop.2, hlt, hidn⟩
            rw [← hwp, h1]
        · rename_i elems hheap
          split at h
          rename_i p st1 heq
          have h0 : (st.next, ({ st with
              obs := (st.next, (⟨id, name, parent, [], [], strict⟩ : Info)) :: st.obs,
              next := st.next + 1 } : St)) = (p, st1) := heq
          injection h0 with h1 h2
          have hpre := obs_prepend_step st
            (⟨id, name, parent, [], [], strict⟩ : Info) hw
          simp at h
          obtain ⟨hwp, rfl⟩ := h
          have hfr : frame st st1 := h2 ▸ hpre.1
          have hlt : st.next < st1.next := by
            rw [← h2]
            exact Nat.lt_succ_self _
          have hidn : lookObs st1 id = none := by
            refine (alook_eq_none_iff st1.obs id).mpr ?_
            intro hmem
            rcases hfr.2.2.1 id hmem with hold | hge
            · exact absurd hold ((alook_eq_none_iff st.obs id).mp hun)
            · have : id < st.next := hw.2 id (mem_keys_of_alook_some _ _ _ hheap)
              omega
          refine Or.inl ⟨.typed elems, hheap, rfl, ?_, h2 ▸ hpre.2.2, hfr,
            h2 ▸ hpre.2.1, hlt, hidn⟩
          rw [← hwp, h1]
        · rename_i elems hheap
          split at h
          rename_i p st1 heq
          have h0 : (st.next, ({ st with
              obs := (st.next, (⟨id, name, parent, [], [], strict⟩ : Info)) :: st.obs,
              next := st.next + 1 } : St)) = (p, st1) := heq
          injection h0 with h1 h2
          have hpre := obs_prepend_step st
            (⟨id, name, parent, [], [], strict⟩ : Info) hw
          cases hws : wrapArrIdx fuel p strict 0 st1 with
          | error e =>
            rw [hws, ebind_err] at h
            simp at h
          | ok st2 =>
            rw [hws, ebind_ok] at h
            simp at h
            obtain ⟨hwp, rfl⟩ := h
            have hloop := (frame_mutual fuel).2.2.2.2.1 p strict 0 st1 st2
              (h2 ▸ hpre.2.1) hws
            have hfr : frame st st2 := frame_trans (h2 ▸ hpre.1) hloop.1
            have hlook : lookObs st2 st.next = some
                { raw := id, name := name, parent := parent,
                  callbacks := [], paused := [], strict := strict } :=
              hloop.1.1 st.next _ (h2 ▸ hpre.2.2)
            have hlt : st.next < st2.next := by
              have ha : st.next < st1.next := by
                rw [← h2]
                exact Nat.lt_succ_self _
              exact Nat.lt_of_lt_of_le ha hloop.1.2.1
            have hidn : lookObs st2 id = none := by
              refine (alook_eq_none_iff st2.obs id).mpr ?_
              intro hmem
              rcases hfr.2.2.1 id hmem with hold | hge
              · exact absurd hold ((alook_eq_none_iff st.obs id).mp hun)
              · have : id < st.next := hw.2 id (mem_keys_of_alook_some _ _ _ hheap)
                omega
            refine Or.inl ⟨.arr elems, hheap, rfl, ?_, hlook, hfr, hloop.2, hlt, hidn⟩
            rw [← hwp, h1]
        · rename_i fields hheap
          split at h
          rename_i p st1 heq
          have h0 : (st.next, ({ st with
              obs := (st.next, (⟨id, name, parent, [], [], strict⟩ : Info)) :: st.obs,
              next := st.next + 1 } : St)) = (p, st1) := heq
          injection h0 with h1 h2
          have hpre := obs_prepend_step st
            (⟨id, name, parent, [], [], strict⟩ : Info) hw
          cases hws : wrapRecFields fuel p strict (fields.map (fun q => q.1)) st1 with
          | error e =>
            rw [hws, ebind_err] at h
            simp at h
          | ok st2 =>
            rw [hws, ebind_ok] at h
            simp at h
            obtain ⟨hwp, rfl⟩ := h
            have hloop := (frame_mutual fuel).2.2.2.1 p strict
              (fields.map (fun q => q.1)) st1 st2 (h2 ▸ hpre.2.1) hws
            have hfr : frame st st2 := frame_trans (h2 ▸ hpre.1) hloop.1
            have hlook : lookObs st2 st.next = some
                { raw := id, name := name, parent := parent,
                  callbacks := [], paused := [], strict := strict } :=
              hloop.1.1 st.next _ (h2 ▸ hpre.2.2)
            have hlt : st.next < st2.next := by
              have ha : st.next < st1.next := by
                rw [← h2]
                exact Nat.lt_succ_self _
              exact Nat.lt_of_lt_of_le ha hloop.1.2.1
            have hidn : lookObs st2 id = none := by
              refine (alook_eq_none_iff st2.obs id).mpr ?_
              intro hmem
              rcases hfr.2.2.1 id hmem with hold | hge
              · exact absurd hold ((alook_eq_none_iff st.obs id).mp hun)
              · have : id < st.next := hw.2 id (mem_keys_of_alook_some _ _ _ hheap)
                omega
            refine Or.inl ⟨.record fields, hheap, rfl, ?_, hlook, hfr, hloop.2, hlt, hidn⟩
            rw [← hwp, h1]
        · rename_i hheap
          simp at h
          obtain ⟨hwp, rfl⟩ := h
          refine Or.inr ⟨hwp.symm, rfl, ?_⟩
          intro hob2 hh2
          rw [hheap] at hh2
          injection hh2 with hh3
          rw [← hh3]
          rfl
        · rename_i hheap
          simp at h
          obtain ⟨hwp, rfl⟩ := h
          refine Or.inr ⟨hwp.symm, rfl, ?_⟩
          intro hob2 hh2
          rw [hheap] at hh2
          injection hh2 with hh3
          rw [← hh3]
          rfl
        · rename_i hheap
          simp at h
          obtain ⟨hwp, rfl⟩ := h
          refine Or.inr ⟨hwp.symm, rfl, ?_⟩
          intro hob2 hh2
          rw [hheap] at hh2
          injection hh2 with hh3
          rw [← hh3]
          rfl
        · rename_i hheap
          split at h
          · simp at h
          · simp at h
            obtain ⟨hwp, rfl⟩ := h
            refine Or.inr ⟨hwp.symm, rfl, ?_⟩
            intro hob2 hh2
            rw [hheap] at hh2
            injection hh2 with hh3
            rw [← hh3]
            rfl

/-- C2, amended: wrap is idempotent on its own results
(wrap(wrap(x)) === wrap(x), for every input on which wrap succeeds), and
for a collection-kind raw value x the wrap result is registered
(isWrapped(wrap(x)) = true) while the raw value itself stays unregistered
(isWrapped(x) = false) and distinct from the facade; however, wrapping
the same raw value a second time creates a fresh distinct facade (the
registry is keyed by the facade identity, not the raw value), and opaque
pass-through values are returned unwrapped, so the second-wrap-identity
and the universal isWrapped(wrap(x)) parts of the original claim fail. -/
theorem c2_amended :
    (∀ fuel v strict st st' w, WFst st →
      observable fuel v strict st = .ok (w, st') →
      observable fuel w strict st' = .ok (w, st')) ∧
    (∀ fuel strict st st' id w hob, WFst st →
      lookObs st id = none → lookHeap st id = some hob → isCollKind hob = true →
      observable fuel (.obj id) strict st = .ok (w, st') →
      isObservable st' w = .ok true ∧ isObservable st' (.obj id) = .ok false ∧
      w ≠ .obj id) := by
  constructor
  · intro fuel v strict st st' w hw h
    rw [observable] at h
    split at h
    · simp at h
    · rename_i heq
      simp at h
      obtain ⟨rfl, rfl⟩ := h
      rw [observable, heq]
    · rename_i heq
      have hobj : isObjTy v = true := by
        rw [isObservable] at heq
        by_cases hio : isObjTy v = true
        · exact hio
        · rw [if_neg hio] at heq
          simp at heq
      have hhas : obsHas st v = false := by
        rw [isObservable, if_pos hobj] at heq
        simpa using heq
      cases v with
      | prim q =>
        cases q with
        | null =>
          cases fuel with
          | zero => simp [makeObservable] at h
          | succ fuel =>
            rw [makeObservable] at h
            split at h
            · simp at h
            · split at h
              · rename_i hc
                simp [obsHas] at hc
              · simp at h
        | undefined => simp [isObjTy] at hobj
        | bool b => simp [isObjTy] at hobj
        | num n => simp [isObjTy] at hobj
        | str s => simp [isObjTy] at hobj
      | obj id =>
        have hun : lookObs st id = none := by
          cases hv : lookObs st id with
          | none => rfl
          | some i =>
            rw [show obsHas st (.obj id) = (lookObs st id).isSome from rfl, hv] at hhas
            simp at hhas
        rcases make_shape fuel id (strV ("")) none strict st w st' hw hun h with
          ⟨hob, hh, hcol, hwk, hlook, hfr, hwf', hlt, hidn⟩ | ⟨hwv, hstv, hopq⟩
        · have hio : isObservable st' w = .ok true := by
            rw [hwk]
            simp [isObservable, isObjTy, obsHas, hlook]
          simp [observable, hio]
        · subst hwv
          subst hstv
          rw [observable, heq]
          exact h
  · intro fuel strict st st' id w hob hw hun hh hcol h
    rw [observable] at h
    split at h
    · simp at h
    · rename_i heq
      rw [isObservable] at heq
      rw [if_pos (by simp [isObjTy])] at heq
      rw [show obsHas st (.obj id) = (lookObs st id).isSome from rfl, hun] at heq
      simp at heq
    · rcases make_shape fuel id (strV ("")) none strict st w st' hw hun h with
        ⟨hob2, hh2, hcol2, hwk, hlook, hfr, hwf', hlt, hidn⟩ | ⟨hwv, hstv, hopq⟩
      · refine ⟨?_, ?_, ?_⟩
        · rw [hwk]
          simp [isObservable, isObjTy, obsHas, hlook]
        · simp [isObservable, isObjTy, obsHas, hidn]
        · rw [hwk]
          intro hcontra
          injection hcontra with hne
          have : id < st.next := hw.2 id (mem_keys_of_alook_some _ _ _ hh)
          omega
      · have := hopq hob hh
        rw [hcol] at this
        simp at this

/-- C2, witness for the amended claim at the concrete record of c2st. -/
theorem c2_witness :
    observable 10 (.obj 1) true c2stW = .ok (.obj 1, c2stW) ∧
    isObservable c2stW (.obj 1) = .ok true ∧
    isObservable c2stW (.obj 0) = .ok false ∧ JSVal.obj 1 ≠ .obj 0 := by
  have hrun : observable 10 (.obj 0) true c2st = .ok (.obj 1, c2stW) := by rfl
  have h1 := c2_amended.1 10 (.obj 0) true c2st c2stW (.obj 1) (by decide) hrun
  have h2 := c2_amended.2 10 true c2st c2stW 0 (.obj 1)
    (.record [("a", numV 1)]) (by decide) (by rfl) (by rfl) (by rfl) hrun
  exact ⟨h1, h2.1, h2.2.1, h2.2.2⟩

/-- C3, amended: for every collection-kind raw value x, wrap registers a
facade whose raw pointer is x, so unwrap(wrap(x)) returns exactly x; but
opaque pass-through values (Date, RegExp, Error) are returned by value
unwrapped and unregistered, so unwrap on them raises the
not-an-observable error instead of returning the original value. -/
theorem c3_amended :
    (∀ fuel strict st st' id w hob, WFst st →
      lookObs st id = none → lookHeap st id = some hob → isCollKind hob = true →
      observable fuel (.obj id) strict st = .ok (w, st') →
      raw st' w = .ok (.obj id)) ∧
    (∀ fuel strict st st' id w, WFst st → lookObs st id = none →
      (lookHeap st id = some .date ∨ lookHeap st id = some .regexp ∨
        lookHeap st id = some .error) →
      observable fuel (.obj id) strict st = .ok (w, st') →
      w = .obj id ∧ raw st' w = .error .notObservable) := by
  constructor
  · intro fuel strict st st' id w hob hw hun hh hcol h
    rw [observable] at h
    split at h
    · simp at h
    · rename_i heq
      rw [isObservable] at heq
      rw [if_pos (by simp [isObjTy])] at heq
      rw [show obsHas st (.obj id) = (lookObs st id).isSome from rfl, hun] at heq
      simp at heq
    · rcases make_shape fuel id (strV ("")) none strict st w st' hw hun h with
        ⟨hob2, hh2, hcol2, hwk, hlook, hfr, hwf', hlt, hidn⟩ | ⟨hwv, hstv, hopq⟩
      · rw [hwk]
        simp [raw, isObservable, isObjTy, obsHas, hlook]
      · have := hopq hob hh
        rw [hcol] at this
        simp at this
  · intro fuel strict st st' id w hw hun hop h
    rw [observable] at h
    split at h
    · simp at h
    · rename_i heq
      rw [isObservable] at heq
      rw [if_pos (by simp [isObjTy])] at heq
      rw [show obsHas st (.obj id) = (lookObs st id).isSome from rfl, hun] at heq
      simp at heq
    · rcases make_shape fuel id (strV ("")) none strict st w st' hw hun h with
        ⟨hob2, hh2, hcol2, hwk, hlook, hfr, hwf', hlt, hidn⟩ | ⟨hwv, hstv, hopq⟩
      · exfalso
        rcases hop with hd | hd | hd
        all_goals
          rw [hd] at hh2
          injection hh2 with hhe
          rw [← hhe] at hcol2
          simp [isCollKind] at hcol2
      · subst hwv
        subst hstv
        refine ⟨rfl, ?_⟩
        simp [raw, isObservable, isObjTy, obsHas, hun]

/-- C3, witness for the amended claim: the collection side on the
concrete record of c2st, the opaque side on the Date of c3st. -/
theorem c3_witness :
    raw c2stW (.obj 1) = .ok (.obj 0) ∧
    raw c3st (.obj 0) = .error .notObservable := by
  have hrun : observable 10 (.obj 0) true c2st = .ok (.obj 1, c2stW) := by rfl
  have h1 := c3_amended.1 10 true c2st c2stW 0 (.obj 1)
    (.record [("a", numV 1)]) (by decide) (by rfl) (by rfl) (by rfl) hrun
  have h2 := c3_amended.2 10 true c3st c3st 0 (.obj 0) (by decide) (by rfl)
    (Or.inl (by rfl)) (by rfl)
  exact ⟨h1, h2.2⟩

/-- Unfolding equation for property read at a cons cell. -/
theorem fget_cons (k1 : String) (v1 : JSVal) (r : List (String × JSVal)) (k : String) :
    fget ((k1, v1) :: r) k = if k1 = k then v1 else fget r k := rfl

/-- In-place overwrite at one key leaves other keys alone. -/
theorem fget_map_replace_ne (F : List (String × JSVal)) (s s' : String) (v : JSVal)
    (h : s ≠ s') :
    fget (F.map (fun p => if p.1 = s then (s, v) else p)) s' = fget F s' := by
  induction F with
  | nil => rfl
  | cons p r ih =>
    obtain ⟨k1, v1⟩ := p
    show fget ((if k1 = s then (s, v) else (k1, v1)) ::
      List.map (fun p => if p.1 = s then (s, v) else p) r) s' = fget ((k1, v1) :: r) s'
    by_cases hk : k1 = s
    · rw [if_pos hk, fget_cons, fget_cons, if_neg h,
          if_neg (show k1 ≠ s' from by rw [hk]; exact h)]
      exact ih
    · rw [if_neg hk, fget_cons, fget_cons]
      by_cases hk' : k1 = s'
      · rw [if_pos hk', if_pos hk']
      · rw [if_neg hk', if_neg hk']
        exact ih

/-- Appending a binding for one key leaves other keys alone. -/
theorem fget_append_single_ne (F : List (String × JSVal)) (s s' : String) (v : JSVal)
    (h : s ≠ s') : fget (F ++ [(s, v)]) s' = fget F s' := by
  induction F with
  | nil =>
    show fget [(s, v)] s' = fget [] s'
    rw [fget_cons, if_neg h]
  | cons p r ih =>
    obtain ⟨k1, v1⟩ := p
    rw [List.cons_append, fget_cons, fget_cons]
    by_cases hk' : k1 = s'
    · rw [if_pos hk', if_pos hk']
    · rw [if_neg hk', if_neg hk']
      exact ih

/-- Property assignment at one key leaves the value at another key alone. -/
theorem fget_fset_ne (F : List (String × JSVal)) (s s' : String) (v : JSVal)
    (h : s ≠ s') : fget (fset F s v) s' = fget F s' := by
  unfold fset
  by_cases hh : fhas F s
  · rw [if_pos hh]
    exact fget_map_replace_ne F s s' v h
  · rw [if_neg hh]
    exact fget_append_single_ne F s s' v h

/-- Wrapping an unregistered leaf record (no properties) just registers a
fresh facade over it; nothing else in the state moves. -/
theorem make_leaf (fuel : Nat) (m : Nat) (name : JSVal) (parent : Option Nat)
    (st : St) (hf : 2 ≤ fuel)
    (hm : lookObs st m = none) (hh : lookHeap st m = some (.record [])) :
    makeObservable fuel (.obj m) name parent true st =
      .ok (.obj st.next,
        { st with obs := (st.next, (⟨m, name, parent, [], [], true⟩ : Info)) :: st.obs,
                  next := st.next + 1 }) := by
  obtain ⟨g, rfl⟩ : ∃ g, fuel = g + 1 + 1 := ⟨fuel - 2, by omega⟩
  rw [makeObservable]
  rw [if_neg (by simp [isObjTy])]
  rw [show obsHas st (.obj m) = false from by simp [obsHas, hm]]
  rw [if_neg (by simp)]
  simp only [hh, addInfo, List.map_nil]
  rw [wrapRecFields]
  rfl

/-- Symbolic run of the notification chain from a callback-free facade
whose parent is facade 1, where one active callback (identifier 0) is
registered: exactly one observation is logged, at facade 1, with the
prefixed path. -/
theorem trigger_chain (fuel : Nat) (hf : 2 ≤ fuel) (ty : EvType) (PX : Nat)
    (p vn vo : JSVal) (st : St) (iPX i1 : Info)
    (hPX : lookObs st PX = some iPX)
    (hcb : iPX.callbacks = []) (hpar : iPX.parent = some 1)
    (h1 : lookObs st 1 = some i1)
    (hcb1 : i1.callbacks = [0]) (hps1 : i1.paused = [(0, false)])
    (hpar1 : i1.parent = none) :
    triggerObserver fuel ty PX p vn vo st =
      .ok { st with log := st.log ++
        [(0, { type := ty, target := 1,
               path := .prim (.str (jsStr iPX.name ++ "." ++ jsStr p)),
               valueNew := vn, valueOld := vo })] } := by
  obtain ⟨g, rfl⟩ : ∃ g, fuel = g + 1 + 1 := ⟨fuel - 2, by omega⟩
  rw [triggerObserver]
  simp only [hPX, deliver, hcb, hpar, List.filter_nil, List.map_nil,
             List.append_nil]
  rw [triggerObserver]
  simp only [show lookObs { st with log := st.log } 1 = some i1 from h1,
             deliver, hcb1, hps1, hpar1, pausedOf, alook]
  simp

/-- Symbolic run of the set trap on a child facade during the recursive
content pass: the assigned value is already observable, so no re-wrap
happens; the member slot is overwritten in the raw record and the
notification chain logs exactly one observation at the ancestor facade 1
with the prefixed path. -/
theorem recSet_member (fuel : Nat) (hf : 3 ≤ fuel) (PX R q : Nat) (s : String)
    (F : List (String × JSVal)) (st : St) (i1 : Info)
    (hPX : lookObs st PX = some (⟨R, strV ("x"), some 1, [], [], true⟩ : Info))
    (hq : obsHas st (.obj q) = true)
    (hR : lookHeap st R = some (.record F))
    (h1 : lookObs st 1 = some i1)
    (hcb1 : i1.callbacks = [0]) (hps1 : i1.paused = [(0, false)])
    (hpar1 : i1.parent = none) :
    recSetT fuel PX s (.obj q) st =
      .ok { st with
        heap := aupd st.heap R (.record (fset F s (.obj q))),
        log := st.log ++ [(0, (⟨.change, 1, strV ("x" ++ "." ++ s), .obj q,
          fget F s⟩ : Event))] } := by
  obtain ⟨g, rfl⟩ : ∃ g, fuel = g + 1 := ⟨fuel - 1, by omega⟩
  have h2 : 2 ≤ g := by omega
  rw [recSetT]
  simp only [hPX, hR]
  rw [show (isObjTy (.obj q) && !(obsHas st (.obj q))) = false from by
    simp [isObjTy, hq]]
  rw [if_neg (by simp)]
  rw [epure_bind]
  beta_reduce
  simp only [hR]
  exact trigger_chain g h2 .change PX (strV s) (.obj q) (fget F s)
    (updHeap st R (.record (fset F s (.obj q)))) _ i1 hPX rfl rfl h1 hcb1
    hps1 hpar1

/-- The keys of the member slots are exactly the names. -/
theorem memFields_map_fst (names : List String) (base : Nat) :
    (memFields base names).map (fun q => q.1) = names := by
  induction names generalizing base with
  | nil => rfl
  | cons n r ih => simp [memFields, ih]

/-- Reading a member slot by name yields the object reference at the
offset of the name. -/
theorem memFields_fget (names : List String) (base : Nat) (s : String)
    (hs : s ∈ names) (hnd : names.Nodup) :
    ∃ j, j < names.length ∧ fget (memFields base names) s = .obj (base + j) := by
  induction names generalizing base with
  | nil => cases hs
  | cons n r ih =>
    rcases List.mem_cons.mp hs with h | h
    · subst h
      exact ⟨0, by simp, by simp [memFields, fget_cons]⟩
    · have hnd' : r.Nodup := (List.nodup_cons.mp hnd).2
      have hne : n ≠ s := by
        intro he
        exact (List.nodup_cons.mp hnd).1 (he ▸ h)
      obtain ⟨j, hj, hf⟩ := ih (base + 1) h hnd'
      refine ⟨j + 1, by simp; omega, ?_⟩
      rw [memFields, fget_cons, if_neg hne, hf]
      congr 1
      omega

/-- The member heap fragment stores an empty record at every offset. -/
theorem memHeap_alook (names : List String) (base j : Nat)
    (hj : j < names.length) :
    alook (memHeap base names) (base + j) = some (.record []) := by
  induction names generalizing base j with
  | nil => exact absurd hj (by simp)
  | cons n r ih =>
    cases j with
    | zero => simp [memHeap, alook_cons]
    | succ j =>
      rw [memHeap, alook_cons, if_neg (by omega)]
      rw [show base + (j + 1) = base + 1 + j from by omega]
      exact ih (base + 1) j (by simpa using hj)

/-- The keys of the member heap fragment lie in the allocated interval. -/
theorem memHeap_keys (names : List String) (base k : Nat)
    (hk : k ∈ keysOf (memHeap base names)) :
    base ≤ k ∧ k < base + names.length := by
  induction names generalizing base with
  | nil => simp [memHeap, keysOf] at hk
  | cons n r ih =>
    have hk' : k = base ∨ k ∈ keysOf (memHeap (base + 1) r) := by
      simpa [memHeap, keysOf] using hk
    rcases hk' with h | h
    · subst h
      simp
    · have := ih (base + 1) h
      constructor <;> [omega; (simp; omega)]

/-- An identity below the base is absent from the member heap fragment. -/
theorem memHeap_alook_lt (names : List String) (base k : Nat) (hk : k < base) :
    alook (memHeap base names) k = none := by
  cases h : alook (memHeap base names) k with
  | none => rfl
  | some v =>
    have := memHeap_keys names base k (mem_keys_of_alook_some _ _ _ h)
    omega

/-- Notification at facade 1 itself (one registered active callback, no
parent): exactly one observation is appended, path untouched. -/
theorem trigger_root (fuel : Nat) (hf : 1 ≤ fuel) (ty : EvType)
    (p vn vo : JSVal) (st : St) (i1 : Info)
    (h1 : lookObs st 1 = some i1)
    (hcb1 : i1.callbacks = [0]) (hps1 : i1.paused = [(0, false)])
    (hpar1 : i1.parent = none) :
    triggerObserver fuel ty 1 p vn vo st =
      .ok { st with log := st.log ++ [(0, (⟨ty, 1, p, vn, vo⟩ : Event))] } := by
  obtain ⟨g, rfl⟩ : ∃ g, fuel = g + 1 := ⟨fuel - 1, by omega⟩
  rw [triggerObserver]
  simp only [h1, deliver, hcb1, hps1, hpar1]
  simp [pausedOf, alook]

/-- One iteration of the recursive content pass for claim C10: the head
member (an unregistered empty record at identity m) is wrapped as a fresh
facade, assigned back through the set trap of the child facade PX (raw
record R, parent facade 1), logging exactly one observation at facade 1
with the prefixed path, and the pass continues on the remaining names. -/
theorem c10_step (PX R : Nat) (i1 : Info)
    (hcb1 : i1.callbacks = [0]) (hps1 : i1.paused = [(0, false)])
    (hpar1 : i1.parent = none)
    (s : String) (rest : List String) (g : Nat) (st : St)
    (F : List (String × JSVal)) (m : Nat)
    (hg : 3 ≤ g)
    (h1 : lookObs st 1 = some i1)
    (hPX : lookObs st PX = some (⟨R, strV ("x"), some 1, [], [], true⟩ : Info))
    (hR : lookHeap st R = some (.record F))
    (hFs : fget F s = .obj m)
    (hmO : lookObs st m = none)
    (hmH : lookHeap st m = some (.record []))
    (hw : WFst st) :
    ∃ st5 : St,
      wrapRecFields (g + 1) PX true (s :: rest) st =
        wrapRecFields g PX true rest st5 ∧
      st5.obs = (st.next, (⟨m, strV s, some PX, [], [], true⟩ : Info)) :: st.obs ∧
      st5.next = st.next + 1 ∧
      st5.heap = aupd st.heap R (.record (fset F s (.obj st.next))) ∧
      st5.log = st.log ++ [(0, (⟨.change, 1, strV ("x" ++ "." ++ s),
        .obj st.next, .obj m⟩ : Event))] := by
  have hnx1 : 1 < st.next := hw.1 1 (mem_keys_of_alook_some _ _ _ h1)
  have hnxPX : PX < st.next := hw.1 PX (mem_keys_of_alook_some _ _ _ hPX)
  have hmk := make_leaf g m (strV s) (some PX) st (by omega) hmO hmH
  have hPXq : lookObs { st with
      obs := (st.next, (⟨m, strV s, some PX, [], [], true⟩ : Info)) :: st.obs,
      next := st.next + 1 } PX =
      some (⟨R, strV ("x"), some 1, [], [], true⟩ : Info) := by
    show alook ((st.next, (⟨m, strV s, some PX, [], [], true⟩ : Info)) :: st.obs)
      PX = _
    rw [alook_cons, if_neg (by omega)]
    exact hPX
  have hqO : obsHas { st with
      obs := (st.next, (⟨m, strV s, some PX, [], [], true⟩ : Info)) :: st.obs,
      next := st.next + 1 } (.obj st.next) = true := by
    show (alook ((st.next, (⟨m, strV s, some PX, [], [], true⟩ : Info)) :: st.obs)
      st.next).isSome = true
    rw [alook_cons, if_pos rfl]
    rfl
  have h1q : lookObs { st with
      obs := (st.next, (⟨m, strV s, some PX, [], [], true⟩ : Info)) :: st.obs,
      next := st.next + 1 } 1 = some i1 := by
    show alook ((st.next, (⟨m, strV s, some PX, [], [], true⟩ : Info)) :: st.obs)
      1 = some i1
    rw [alook_cons, if_neg (by omega)]
    exact h1
  have hset := recSet_member g hg PX R st.next s F
    { st with
      obs := (st.next, (⟨m, strV s, some PX, [], [], true⟩ : Info)) :: st.obs,
      next := st.next + 1 } i1 hPXq hqO hR h1q hcb1 hps1 hpar1
  rw [hFs] at hset
  refine ⟨{ heap := aupd st.heap R (.record (fset F s (.obj st.next))),
            obs := (st.next, (⟨m, strV s, some PX, [], [], true⟩ : Info)) :: st.obs,
            next := st.next + 1,
            log := st.log ++ [(0, (⟨.change, 1, strV ("x" ++ "." ++ s),
              .obj st.next, .obj m⟩ : Event))] }, ?_, rfl, rfl, rfl, rfl⟩
  rw [wrapRecFields]
  simp only [hPX, hR]
  rw [hFs]
  rw [if_pos (by simp [isObjTy])]
  simp only [hmk, hset, ebind_ok]

/-- The whole recursive content pass for claim C10: one observation is
logged at facade 1 per member name, in order, each with the prefixed
path; the registry entry of facade 1 survives and only the raw record R
moves in the heap. -/
theorem c10_loop (PX R : Nat) (i1 : Info)
    (hcb1 : i1.callbacks = [0]) (hps1 : i1.paused = [(0, false)])
    (hpar1 : i1.parent = none) (rest : List String) :
    ∀ (fuel : Nat) (st : St) (F : List (String × JSVal)),
    rest.Nodup → rest.length + 4 ≤ fuel →
    lookObs st 1 = some i1 →
    lookObs st PX = some (⟨R, strV ("x"), some 1, [], [], true⟩ : Info) →
    lookHeap st R = some (.record F) →
    (∀ s ∈ rest, ∃ m, fget F s = .obj m ∧ lookObs st m = none ∧
        lookHeap st m = some (.record [])) →
    WFst st →
    ∃ (st' : St) (vals : List (JSVal × JSVal)),
      wrapRecFields fuel PX true rest st = .ok st' ∧
      vals.length = rest.length ∧
      st'.log = st.log ++ (List.zip rest vals).map (fun q =>
        (0, (⟨.change, 1, strV ("x" ++ "." ++ q.1), q.2.1, q.2.2⟩ : Event))) ∧
      lookObs st' 1 = some i1 ∧
      (∀ id, id ≠ R → lookHeap st' id = lookHeap st id) := by
  induction rest with
  | nil =>
    intro fuel st F hnd hf h1 hPX hR hmem hw
    obtain ⟨g, rfl⟩ : ∃ g, fuel = g + 1 := ⟨fuel - 1, by omega⟩
    refine ⟨st, [], ?_, rfl, by simp, h1, fun id _ => rfl⟩
    rw [wrapRecFields]
  | cons s rest ih =>
    intro fuel st F hnd hf h1 hPX hR hmem hw
    obtain ⟨g, rfl⟩ : ∃ g, fuel = g + 1 := ⟨fuel - 1, by omega⟩
    obtain ⟨m, hFs, hmO, hmH⟩ := hmem s (List.mem_cons_self s rest)
    have hnd' : rest.Nodup := (List.nodup_cons.mp hnd).2
    have hsr : s ∉ rest := (List.nodup_cons.mp hnd).1
    have hnx1 : 1 < st.next := hw.1 1 (mem_keys_of_alook_some _ _ _ h1)
    have hnxPX : PX < st.next := hw.1 PX (mem_keys_of_alook_some _ _ _ hPX)
    have hnxR : R < st.next := hw.2 R (mem_keys_of_alook_some _ _ _ hR)
    obtain ⟨st5, hstep, hobs5, hnext5, hheap5, hlog5⟩ :=
      c10_step PX R i1 hcb1 hps1 hpar1 s rest g st F m (by omega) h1 hPX hR
        hFs hmO hmH hw
    have h1_5 : lookObs st5 1 = some i1 := by
      show alook st5.obs 1 = some i1
      rw [hobs5, alook_cons, if_neg (by omega)]
      exact h1
    have hPX_5 : lookObs st5 PX =
        some (⟨R, strV ("x"), some 1, [], [], true⟩ : Info) := by
      show alook st5.obs PX = _
      rw [hobs5, alook_cons, if_neg (by omega)]
      exact hPX
    have hR_5 : lookHeap st5 R = some (.record (fset F s (.obj st.next))) := by
      show alook st5.heap R = _
      rw [hheap5, alook_aupd_self]
      rw [show alook st.heap R = some (.record F) from hR]
      rfl
    have hmem_5 : ∀ s' ∈ rest, ∃ m', fget (fset F s (.obj st.next)) s' = .obj m' ∧
        lookObs st5 m' = none ∧ lookHeap st5 m' = some (.record []) := by
      intro s' hs'
      obtain ⟨m', hFs', hmO', hmH'⟩ := hmem s' (List.mem_cons_of_mem s hs')
      have hss' : s ≠ s' := fun he => hsr (he ▸ hs')
      have hm'lt : m' < st.next := hw.2 m' (mem_keys_of_alook_some _ _ _ hmH')
      have hm'R : m' ≠ R := by
        intro he
        rw [he, hR] at hmH'
        simp only [Option.some.injEq, HObj.record.injEq] at hmH'
        rw [hmH'] at hFs
        simp [fget] at hFs
      refine ⟨m', ?_, ?_, ?_⟩
      · rw [fget_fset_ne F s s' _ hss']
        exact hFs'
      · show alook st5.obs m' = none
        rw [hobs5, alook_cons, if_neg (by omega)]
        exact hmO'
      · show alook st5.heap m' = some (.record [])
        rw [hheap5, alook_aupd_ne st.heap R m' _ (fun he => hm'R he.symm)]
        exact hmH'
    have hw_5 : WFst st5 := by
      constructor
      · intro k hk
        have hk' : k = st.next ∨ k ∈ keysOf st.obs := by
          simpa [keysOf, hobs5] using hk
        rw [hnext5]
        rcases hk' with h | h
        · omega
        · have := hw.1 k h
          omega
      · intro k hk
        have hk' : k ∈ keysOf st.heap := by
          simpa [hheap5, keysOf_aupd] using hk
        have := hw.2 k hk'
        rw [hnext5]
        omega
    obtain ⟨st', vals, hrun, hlen, hlog, h1', hhp⟩ :=
      ih g st5 (fset F s (.obj st.next)) hnd'
        (by simp only [List.length_cons] at hf; omega) h1_5 hPX_5 hR_5
        hmem_5 hw_5
    refine ⟨st', (JSVal.obj st.next, JSVal.obj m) :: vals, ?_, by simp [hlen],
      ?_, h1', ?_⟩
    · rw [hstep]
      exact hrun
    · rw [hlog, hlog5]
      simp [List.append_assoc]
    · intro id hid
      rw [hhp id hid]
      show alook st5.heap id = alook st.heap id
      rw [hheap5]
      exact alook_aupd_ne st.heap R id _ (fun he => hid he.symm)

/-- C10: assigning an object-typed value that itself contains
object-typed members into an already-observed record facade fires, before
the single change event for the assignment itself, one additional change
event per nested object-typed member slot (the recursive wrapping
replaces each member through the new child facade's set trap), so the
observer receives more than one event for the single assignment: for any
duplicate-free nonempty list of member names, assigning the record with
one empty-record member per name to property x of the observed record
logs exactly one change event per member, in member order, each with path
x.name, followed by the change event for the assignment itself with path
x, a total of names.length + 1 > 1 events at the single observer. -/
theorem c10_implicit_nested_events (names : List String)
    (hnd : names.Nodup) (hne : names ≠ []) :
    ∃ (st' : St) (vals : List (JSVal × JSVal)),
      recSetT (names.length + 6) 1 ("x") (.obj (names.length + 2))
          (c10base names) = .ok st' ∧
      vals.length = names.length ∧
      st'.log = (List.zip names vals).map (fun q =>
          (0, (⟨.change, 1, strV ("x" ++ "." ++ q.1), q.2.1, q.2.2⟩ : Event))) ++
        [(0, (⟨.change, 1, strV ("x"), .obj (names.length + 3),
          undefV⟩ : Event))] ∧
      st'.log.length = names.length + 1 ∧
      1 < st'.log.length := by
  have hO1 : lookObs (c10base names) 1 = some (⟨0, strV (""), none, [0], [(0, false)], true⟩ : Info) := rfl
  have hH0 : lookHeap (c10base names) 0 = some (.record [("p", numV 1)]) := rfl
  have hOX : lookObs (c10base names) (names.length + 2) = none := by
    show alook [(1, (⟨0, strV (""), none, [0], [(0, false)], true⟩ : Info))] (names.length + 2) = none
    rw [alook_cons, if_neg (by omega)]
    rfl
  have hX : lookHeap (c10base names) (names.length + 2) =
      some (.record (memFields 2 names)) := by
    show alook ((0, .record [("p", numV 1)]) ::
      (names.length + 2, .record (memFields 2 names)) :: memHeap 2 names) (names.length + 2) = _
    rw [alook_cons, if_neg (by omega), alook_cons, if_pos rfl]
  have h1L : lookObs (c10mid names) 1 = some (⟨0, strV (""), none, [0], [(0, false)], true⟩ : Info) := by
    show alook ((names.length + 3, (⟨names.length + 2, strV ("x"), some 1, [], [], true⟩ : Info)) ::
      [(1, (⟨0, strV (""), none, [0], [(0, false)], true⟩ : Info))]) 1 = some (⟨0, strV (""), none, [0], [(0, false)], true⟩ : Info)
    rw [alook_cons, if_neg (by omega), alook_cons, if_pos rfl]
  have hPXL : lookObs (c10mid names) (names.length + 3) = some (⟨names.length + 2, strV ("x"), some 1, [], [], true⟩ : Info) := by
    show alook ((names.length + 3, (⟨names.length + 2, strV ("x"), some 1, [], [], true⟩ : Info)) ::
      [(1, (⟨0, strV (""), none, [0], [(0, false)], true⟩ : Info))]) (names.length + 3) = some (⟨names.length + 2, strV ("x"), some 1, [], [], true⟩ : Info)
    rw [alook_cons, if_pos rfl]
  have hRL : lookHeap (c10mid names) (names.length + 2) =
      some (.record (memFields 2 names)) := by
    show alook ((0, .record [("p", numV 1)]) ::
      (names.length + 2, .record (memFields 2 names)) :: memHeap 2 names) (names.length + 2) = _
    rw [alook_cons, if_neg (by omega), alook_cons, if_pos rfl]
  have hmemL : ∀ s ∈ names, ∃ m, fget (memFields 2 names) s = .obj m ∧
      lookObs (c10mid names) m = none ∧
      lookHeap (c10mid names) m = some (.record []) := by
    intro s hs
    obtain ⟨j, hj, hf⟩ := memFields_fget names 2 s hs hnd
    refine ⟨2 + j, hf, ?_, ?_⟩
    · show alook ((names.length + 3, (⟨names.length + 2, strV ("x"), some 1, [], [], true⟩ : Info)) ::
        [(1, (⟨0, strV (""), none, [0], [(0, false)], true⟩ : Info))]) (2 + j) = none
      rw [alook_cons, if_neg (by omega), alook_cons, if_neg (by omega)]
      rfl
    · show alook ((0, .record [("p", numV 1)]) ::
      (names.length + 2, .record (memFields 2 names)) :: memHeap 2 names) (2 + j) = some (.record [])
      rw [alook_cons, if_neg (by omega), alook_cons, if_neg (by omega)]
      exact memHeap_alook names 2 j hj
  have hwL : WFst (c10mid names) := by
    constructor
    · intro k hk
      have hk2 : k ∈ (names.length + 3) :: 1 :: ([] : List Nat) := hk
      show k < (c10mid names).next
      simp only [c10mid]
      rcases List.mem_cons.mp hk2 with h | h
      · omega
      · rcases List.mem_cons.mp h with h2 | h2
        · omega
        · simp at h2
    · intro k hk
      have hk2 : k ∈ 0 :: (names.length + 2) :: keysOf (memHeap 2 names) := hk
      show k < (c10mid names).next
      simp only [c10mid]
      rcases List.mem_cons.mp hk2 with h | h
      · omega
      · rcases List.mem_cons.mp h with h2 | h2
        · omega
        · have := memHeap_keys names 2 k h2
          omega
  obtain ⟨st', vals, hrun, hlen, hlog, h1', hhp⟩ :=
    c10_loop (names.length + 3) (names.length + 2) (⟨0, strV (""), none, [0], [(0, false)], true⟩ : Info) rfl rfl rfl names
      (names.length + 4) (c10mid names) (memFields 2 names) hnd (by omega)
      h1L hPXL hRL hmemL hwL
  have hMO : makeObservable (names.length + 5) (.obj (names.length + 2))
      (strV ("x")) (some 1) true (c10base names) =
      .ok (.obj (names.length + 3), st') := by
    rw [show names.length + 5 = names.length + 4 + 1 from by omega]
    rw [makeObservable]
    rw [if_neg (by simp [isObjTy])]
    rw [show obsHas (c10base names) (.obj (names.length + 2)) = false from by
      simp [obsHas, hOX]]
    rw [if_neg (by simp)]
    simp only [hX, addInfo, memFields_map_fst]
    simp only [c10base]
    have hrun' := hrun
    simp only [c10mid] at hrun'
    rw [hrun', ebind_ok]
  have hH0' : lookHeap st' 0 = some (.record [("p", numV 1)]) := by
    rw [hhp 0 (by omega)]
    exact hH0
  have htr := trigger_root (names.length + 5) (by omega) .change (strV ("x"))
    (.obj (names.length + 3)) undefV
    (updHeap st' 0 (.record (fset [("p", numV 1)] ("x")
      (.obj (names.length + 3))))) (⟨0, strV (""), none, [0], [(0, false)], true⟩ : Info) h1' rfl rfl rfl
  have hFinal : recSetT (names.length + 6) 1 ("x") (.obj (names.length + 2))
      (c10base names) =
      .ok { updHeap st' 0 (.record (fset [("p", numV 1)] ("x")
              (.obj (names.length + 3)))) with
            log := st'.log ++ [(0, (⟨.change, 1, strV ("x"),
              .obj (names.length + 3), undefV⟩ : Event))] } := by
    rw [show names.length + 6 = names.length + 5 + 1 from by omega]
    rw [recSetT]
    simp only [hO1, hH0]
    rw [if_pos (show (isObjTy (JSVal.obj (names.length + 2)) &&
        !(obsHas (c10base names) (JSVal.obj (names.length + 2)))) = true from by
      simp [isObjTy, obsHas, hOX])]
    rw [hMO, ebind_ok]
    beta_reduce
    simp only [hH0', show fget [("p", numV 1)] ("x") = undefV from rfl]
    rw [htr]
    rfl
  refine ⟨_, vals, hFinal, hlen, ?_, ?_, ?_⟩
  · show st'.log ++ [(0, (⟨.change, 1, strV ("x"),
      .obj (names.length + 3), undefV⟩ : Event))] = _
    rw [hlog]
    simp [c10mid]
  · show (st'.log ++ [(0, (⟨.change, 1, strV ("x"),
      .obj (names.length + 3), undefV⟩ : Event))]).length = names.length + 1
    rw [hlog]
    simp [c10mid, hlen]
  · show 1 < (st'.log ++ [(0, (⟨.change, 1, strV ("x"),
      .obj (names.length + 3), undefV⟩ : Event))]).length
    have hpos : 0 < names.length := List.length_pos.mpr hne
    rw [hlog]
    simp [c10mid, hlen]
    omega

/-- Witness for C10 at the concrete member names m and n: assigning the
record with those two empty-record members logs three events, the two
member events and the assignment event. -/
theorem c10_witness :
    ∃ (st' : St) (vals : List (JSVal × JSVal)),
      recSetT 8 1 ("x") (.obj 4) (c10base ["m", "n"]) = .ok st' ∧
      vals.length = 2 ∧
      st'.log = (List.zip ["m", "n"] vals).map (fun q =>
          (0, (⟨.change, 1, strV ("x" ++ "." ++ q.1), q.2.1, q.2.2⟩ : Event))) ++
        [(0, (⟨.change, 1, strV ("x"), .obj 5, undefV⟩ : Event))] ∧
      st'.log.length = 3 ∧
      1 < st'.log.length :=
  c10_implicit_nested_events ["m", "n"] (by decide) (by decide)

/-- In-place overwrite at a present key stores the new value there. -/
theorem fget_map_replace_self (F : List (String × JSVal)) (s : String)
    (v : JSVal) (hh : fhas F s = true) :
    fget (F.map (fun p => if p.1 = s then (s, v) else p)) s = v := by
  induction F with
  | nil => simp [fhas] at hh
  | cons p r ih =>
    obtain ⟨k1, v1⟩ := p
    show fget ((if k1 = s then (s, v) else (k1, v1)) ::
      List.map (fun p => if p.1 = s then (s, v) else p) r) s = v
    by_cases hk : k1 = s
    · rw [if_pos hk, fget_cons, if_pos rfl]
    · rw [if_neg hk, fget_cons, if_neg hk]
      apply ih
      simpa [fhas, hk] using hh
/-- Appending a binding for an absent key stores the new value there. -/
theorem fget_append_self (F : List (String × JSVal)) (s : String) (v : JSVal)
    (hh : fhas F s = false) : fget (F ++ [(s, v)]) s = v := by
  induction F with
  | nil =>
    show fget [(s, v)] s = v
    rw [fget_cons, if_pos rfl]
  | cons p r ih =>
    obtain ⟨k1, v1⟩ := p
    have hk : k1 ≠ s := by
      intro he
      rw [he] at hh
      simp [fhas] at hh
    rw [List.cons_append, fget_cons, if_neg hk]
    apply ih
    simpa [fhas, hk] using hh

/-- Property assignment stores the assigned value at the key. -/
theorem fget_fset_self (F : List (String × JSVal)) (s : String) (v : JSVal) :
    fget (fset F s v) s = v := by
  unfold fset
  by_cases hh : fhas F s
  · rw [if_pos hh]
    exact fget_map_replace_self F s v hh
  · rw [if_neg hh]
    exact fget_append_self F s v (by simpa using hh)

/-- Notification at a facade with no callbacks and no parent leaves the
whole state untouched. -/
theorem trigger_silent (fuel : Nat) (hf : 1 ≤ fuel) (ty : EvType) (t : Nat)
    (p vn vo : JSVal) (st : St) (i : Info)
    (ht : lookObs st t = some i) (hcb : i.callbacks = [])
    (hpar : i.parent = none) :
    triggerObserver fuel ty t p vn vo st = .ok st := by
  obtain ⟨g, rfl⟩ : ∃ g, fuel = g + 1 := ⟨fuel - 1, by omega⟩
  rw [triggerObserver]
  simp only [ht, deliver, hcb, hpar, List.filter_nil, List.map_nil,
    List.append_nil]

/-- Symbolic run of the set trap on an observer-free root facade: the
assigned value is already observable, so no re-wrap happens; the member
slot is overwritten in the raw record and nothing else moves. -/
theorem c7_member (fuel : Nat) (hf : 3 ≤ fuel) (P R q : Nat) (s : String)
    (F : List (String × JSVal)) (st : St)
    (hP : lookObs st P = some (⟨R, strV (""), none, [], [], true⟩ : Info))
    (hq : obsHas st (.obj q) = true)
    (hR : lookHeap st R = some (.record F)) :
    recSetT fuel P s (.obj q) st =
      .ok { st with heap := aupd st.heap R (.record (fset F s (.obj q))) } := by
  obtain ⟨g, rfl⟩ : ∃ g, fuel = g + 1 := ⟨fuel - 1, by omega⟩
  rw [recSetT]
  simp only [hP, hR]
  rw [show (isObjTy (.obj q) && !(obsHas st (.obj q))) = false from by
    simp [isObjTy, hq]]
  rw [if_neg (by simp)]
  rw [epure_bind]
  beta_reduce
  simp only [hR]
  exact trigger_silent g (by omega) .change P (strV s) (.obj q) (fget F s)
    (updHeap st R (.record (fset F s (.obj q)))) _ hP rfl rfl

/-- One iteration of the recursive content pass under an observer-free
root facade P (raw record R): the head member (an unregistered empty
record at identity m) is wrapped as a fresh facade and assigned back into
its slot; the log does not move. -/
theorem c7_step (P R : Nat) (s : String) (rest : List String) (g : Nat)
    (st : St) (F : List (String × JSVal)) (m : Nat)
    (hg : 3 ≤ g)
    (hP : lookObs st P = some (⟨R, strV (""), none, [], [], true⟩ : Info))
    (hR : lookHeap st R = some (.record F))
    (hFs : fget F s = .obj m)
    (hmO : lookObs st m = none)
    (hmH : lookHeap st m = some (.record []))
    (hw : WFst st) :
    ∃ st5 : St,
      wrapRecFields (g + 1) P true (s :: rest) st =
        wrapRecFields g P true rest st5 ∧
      st5.obs = (st.next, (⟨m, strV s, some P, [], [], true⟩ : Info)) :: st.obs ∧
      st5.next = st.next + 1 ∧
      st5.heap = aupd st.heap R (.record (fset F s (.obj st.next))) ∧
      st5.log = st.log := by
  have hnxP : P < st.next := hw.1 P (mem_keys_of_alook_some _ _ _ hP)
  have hmk := make_leaf g m (strV s) (some P) st (by omega) hmO hmH
  have hPq : lookObs { st with
      obs := (st.next, (⟨m, strV s, some P, [], [], true⟩ : Info)) :: st.obs,
      next := st.next + 1 } P =
      some (⟨R, strV (""), none, [], [], true⟩ : Info) := by
    show alook ((st.next, (⟨m, strV s, some P, [], [], true⟩ : Info)) :: st.obs)
      P = _
    rw [alook_cons, if_neg (by omega)]
    exact hP
  have hqO : obsHas { st with
      obs := (st.next, (⟨m, strV s, some P, [], [], true⟩ : Info)) :: st.obs,
      next := st.next + 1 } (.obj st.next) = true := by
    show (alook ((st.next, (⟨m, strV s, some P, [], [], true⟩ : Info)) :: st.obs)
      st.next).isSome = true
    rw [alook_cons, if_pos rfl]
    rfl
  have hset := c7_member g hg P R st.next s F
    { st with
      obs := (st.next, (⟨m, strV s, some P, [], [], true⟩ : Info)) :: st.obs,
      next := st.next + 1 } hPq hqO hR
  refine ⟨{ heap := aupd st.heap R (.record (fset F s (.obj st.next))),
            obs := (st.next, (⟨m, strV s, some P, [], [], true⟩ : Info)) :: st.obs,
            next := st.next + 1,
            log := st.log }, ?_, rfl, rfl, rfl, rfl⟩
  rw [wrapRecFields]
  simp only [hP, hR]
  rw [hFs]
  rw [if_pos (by simp [isObjTy])]
  simp only [hmk, hset, ebind_ok]

/-- The whole recursive content pass under an observer-free root facade:
it succeeds, every member slot of the raw record R ends up holding a
registered facade, other keys are untouched, existing registry entries
survive, and the state stays well-formed. -/
theorem c7_loop (P R : Nat) (rest : List String) :
    ∀ (fuel : Nat) (st : St) (F : List (String × JSVal)),
    rest.Nodup → rest.length + 4 ≤ fuel →
    lookObs st P = some (⟨R, strV (""), none, [], [], true⟩ : Info) →
    lookHeap st R = some (.record F) →
    (∀ s ∈ rest, ∃ m, fget F s = .obj m ∧ lookObs st m = none ∧
        lookHeap st m = some (.record [])) →
    WFst st →
    ∃ (st' : St) (F' : List (String × JSVal)),
      wrapRecFields fuel P true rest st = .ok st' ∧
      lookHeap st' R = some (.record F') ∧
      (∀ s', s' ∉ rest → fget F' s' = fget F s') ∧
      (∀ s ∈ rest, ∃ pf, fget F' s = .obj pf ∧ (lookObs st' pf).isSome) ∧
      (∀ k i, lookObs st k = some i → lookObs st' k = some i) ∧
      WFst st' := by
  induction rest with
  | nil =>
    intro fuel st F hnd hf hP hR hmem hw
    obtain ⟨g, rfl⟩ : ∃ g, fuel = g + 1 := ⟨fuel - 1, by omega⟩
    refine ⟨st, F, ?_, hR, fun s' _ => rfl, by simp, fun k i h => h, hw⟩
    rw [wrapRecFields]
  | cons s rest ih =>
    intro fuel st F hnd hf hP hR hmem hw
    obtain ⟨g, rfl⟩ : ∃ g, fuel = g + 1 := ⟨fuel - 1, by omega⟩
    obtain ⟨m, hFs, hmO, hmH⟩ := hmem s (List.mem_cons_self s rest)
    have hnd' : rest.Nodup := (List.nodup_cons.mp hnd).2
    have hsr : s ∉ rest := (List.nodup_cons.mp hnd).1
    have hnxP : P < st.next := hw.1 P (mem_keys_of_alook_some _ _ _ hP)
    have hnxR : R < st.next := hw.2 R (mem_keys_of_alook_some _ _ _ hR)
    obtain ⟨st5, hstep, hobs5, hnext5, hheap5, hlog5⟩ :=
      c7_step P R s rest g st F m (by omega) hP hR hFs hmO hmH hw
    have hP_5 : lookObs st5 P =
        some (⟨R, strV (""), none, [], [], true⟩ : Info) := by
      show alook st5.obs P = _
      rw [hobs5, alook_cons, if_neg (by omega)]
      exact hP
    have hR_5 : lookHeap st5 R = some (.record (fset F s (.obj st.next))) := by
      show alook st5.heap R = _
      rw [hheap5, alook_aupd_self]
      rw [show alook st.heap R = some (.record F) from hR]
      rfl
    have hmem_5 : ∀ s' ∈ rest, ∃ m', fget (fset F s (.obj st.next)) s' = .obj m' ∧
        lookObs st5 m' = none ∧ lookHeap st5 m' = some (.record []) := by
      intro s' hs'
      obtain ⟨m', hFs', hmO', hmH'⟩ := hmem s' (List.mem_cons_of_mem s hs')
      have hss' : s ≠ s' := fun he => hsr (he ▸ hs')
      have hm'lt : m' < st.next := hw.2 m' (mem_keys_of_alook_some _ _ _ hmH')
      have hm'R : m' ≠ R := by
        intro he
        rw [he, hR] at hmH'
        simp only [Option.some.injEq, HObj.record.injEq] at hmH'
        rw [hmH'] at hFs
        simp [fget] at hFs
      refine ⟨m', ?_, ?_, ?_⟩
      · rw [fget_fset_ne F s s' _ hss']
        exact hFs'
      · show alook st5.obs m' = none
        rw [hobs5, alook_cons, if_neg (by omega)]
        exact hmO'
      · show alook st5.heap m' = some (.record [])
        rw [hheap5, alook_aupd_ne st.heap R m' _ (fun he => hm'R he.symm)]
        exact hmH'
    have hw_5 : WFst st5 := by
      constructor
      · intro k hk
        have hk' : k = st.next ∨ k ∈ keysOf st.obs := by
          simpa [keysOf, hobs5] using hk
        rw [hnext5]
        rcases hk' with h | h
        · omega
        · have := hw.1 k h
          omega
      · intro k hk
        have hk' : k ∈ keysOf st.heap := by
          simpa [hheap5, keysOf_aupd] using hk
        have := hw.2 k hk'
        rw [hnext5]
        omega
    obtain ⟨st', F', hrun, hR', hout, hcov, hpres, hw'⟩ :=
      ih g st5 (fset F s (.obj st.next)) hnd'
        (by simp only [List.length_cons] at hf; omega) hP_5 hR_5 hmem_5 hw_5
    refine ⟨st', F', ?_, hR', ?_, ?_, ?_, hw'⟩
    · rw [hstep]
      exact hrun
    · intro s' hs'
      have h1 : s' ∉ rest := fun h => hs' (List.mem_cons_of_mem s h)
      have h2 : s ≠ s' := fun he => hs' (he ▸ List.mem_cons_self s rest)
      rw [hout s' h1, fget_fset_ne F s s' _ h2]
    · intro s2 hs2
      rcases List.mem_cons.mp hs2 with h | h
      · subst h
        refine ⟨st.next, ?_, ?_⟩
        · rw [hout s2 hsr, fget_fset_self]
        · have hm5 : lookObs st5 st.next =
              some (⟨m, strV s2, some P, [], [], true⟩ : Info) := by
            show alook st5.obs st.next = _
            rw [hobs5, alook_cons, if_pos rfl]
          rw [hpres st.next _ hm5]
          rfl
      · exact hcov s2 h
    · intro k i h
      apply hpres
      show alook st5.obs k = some i
      have hklt : k < st.next := hw.1 k (mem_keys_of_alook_some _ _ _ h)
      rw [hobs5, alook_cons, if_neg (by omega)]
      exact h

/-- C7, amended: after wrapping the root record, every member slot
descendant is wrapped.  For any duplicate-free list of member names, with
one raw empty record per member, wrapping the root succeeds, the root
facade is observable, and every member read through the root facade is a
registered facade (isObservable true).  (Map keys, by contrast, are never
wrapped: see the counterexample.) -/
theorem c7_amended (names : List String) (hnd : names.Nodup) :
    ∃ (st' : St) (F' : List (String × JSVal)),
      observable (names.length + 5) (.obj names.length) true (c7base names) =
        .ok (.obj (names.length + 1), st') ∧
      isObservable st' (.obj (names.length + 1)) = .ok true ∧
      lookHeap st' names.length = some (.record F') ∧
      (∀ s ∈ names, ∃ pf, fget F' s = .obj pf ∧
        isObservable st' (.obj pf) = .ok true) ∧
      (∀ s ∈ names, isObservable st' (recGet st' (names.length + 1) s) =
        .ok true) := by
  have hOX : lookObs (c7base names) names.length = none := rfl
  have hX : lookHeap (c7base names) names.length =
      some (.record (memFields 0 names)) := by
    show alook ((names.length, .record (memFields 0 names)) :: memHeap 0 names)
      names.length = _
    rw [alook_cons, if_pos rfl]
  have hPL : lookObs (c7mid names) (names.length + 1) =
      some (⟨names.length, strV (""), none, [], [], true⟩ : Info) := by
    show alook [(names.length + 1,
      (⟨names.length, strV (""), none, [], [], true⟩ : Info))]
      (names.length + 1) = _
    rw [alook_cons, if_pos rfl]
  have hRL : lookHeap (c7mid names) names.length =
      some (.record (memFields 0 names)) := by
    show alook ((names.length, .record (memFields 0 names)) :: memHeap 0 names)
      names.length = _
    rw [alook_cons, if_pos rfl]
  have hmemL : ∀ s ∈ names, ∃ m, fget (memFields 0 names) s = .obj m ∧
      lookObs (c7mid names) m = none ∧
      lookHeap (c7mid names) m = some (.record []) := by
    intro s hs
    obtain ⟨j, hj, hf⟩ := memFields_fget names 0 s hs hnd
    refine ⟨0 + j, hf, ?_, ?_⟩
    · show alook [(names.length + 1,
        (⟨names.length, strV (""), none, [], [], true⟩ : Info))] (0 + j) = none
      rw [alook_cons, if_neg (by omega)]
      rfl
    · show alook ((names.length, .record (memFields 0 names)) :: memHeap 0 names)
        (0 + j) = some (.record [])
      rw [alook_cons, if_neg (by omega)]
      exact memHeap_alook names 0 j hj
  have hwL : WFst (c7mid names) := by
    constructor
    · intro k hk
      have hk2 : k ∈ (names.length + 1) :: ([] : List Nat) := hk
      show k < (c7mid names).next
      simp only [c7mid]
      rcases List.mem_cons.mp hk2 with h | h
      · omega
      · simp at h
    · intro k hk
      have hk2 : k ∈ names.length :: keysOf (memHeap 0 names) := hk
      show k < (c7mid names).next
      simp only [c7mid]
      rcases List.mem_cons.mp hk2 with h | h
      · omega
      · have := memHeap_keys names 0 k h
        omega
  obtain ⟨st', F', hrun, hR', hout, hcov, hpres, hw'⟩ :=
    c7_loop (names.length + 1) names.length names (names.length + 4)
      (c7mid names) (memFields 0 names) hnd (by omega) hPL hRL hmemL hwL
  have hMO : makeObservable (names.length + 5) (.obj names.length) (strV (""))
      none true (c7base names) = .ok (.obj (names.length + 1), st') := by
    rw [show names.length + 5 = names.length + 4 + 1 from by omega]
    rw [makeObservable]
    rw [if_neg (by simp [isObjTy])]
    rw [show obsHas (c7base names) (.obj names.length) = false from by
      simp [obsHas, hOX]]
    rw [if_neg (by simp)]
    simp only [hX, addInfo, memFields_map_fst]
    simp only [c7base]
    have hrun' := hrun
    simp only [c7mid] at hrun'
    rw [hrun', ebind_ok]
  have hobs : observable (names.length + 5) (.obj names.length) true
      (c7base names) = .ok (.obj (names.length + 1), st') := by
    rw [observable]
    simp only [show isObservable (c7base names) (.obj names.length) =
      .ok false from rfl]
    exact hMO
  have hroot : lookObs st' (names.length + 1) =
      some (⟨names.length, strV (""), none, [], [], true⟩ : Info) :=
    hpres (names.length + 1) _ hPL
  refine ⟨st', F', hobs, ?_, hR', ?_, ?_⟩
  · simp [isObservable, isObjTy, obsHas, hroot]
  · intro s hs
    obtain ⟨pf, hpf, hpfS⟩ := hcov s hs
    exact ⟨pf, hpf, by simp [isObservable, isObjTy, obsHas, hpfS]⟩
  · intro s hs
    obtain ⟨pf, hpf, hpfS⟩ := hcov s hs
    simp only [recGet, hroot, hR', hpf]
    simp [isObservable, isObjTy, obsHas, hpfS]

/-- Witness for the amended C7 at the concrete member names a and b:
wrapping the two-member record registers a facade for each member, and
both members read through the root facade are observable. -/
theorem c7_witness :
    ∃ (st' : St) (F' : List (String × JSVal)),
      observable 7 (.obj 2) true (c7base ["a", "b"]) = .ok (.obj 3, st') ∧
      isObservable st' (.obj 3) = .ok true ∧
      lookHeap st' 2 = some (.record F') ∧
      (∀ s ∈ ["a", "b"], ∃ pf, fget F' s = .obj pf ∧
        isObservable st' (.obj pf) = .ok true) ∧
      (∀ s ∈ ["a", "b"], isObservable st' (recGet st' 3 s) = .ok true) :=
  c7_amended ["a", "b"] (by decide)

/-- Counterexample to C7 as stated: a plain-object key of a wrapped map
is an object-typed descendant reachable through the facade (the map
entry, with its key, is still there) and is not an opaque pass-through
kind, yet it has no registry entry: isObservable is false on it.  The
recursive content pass of the Map branch wraps entry values only, never
keys. -/
theorem c7_counterexample :
    ∃ st' : St, observable 10 (.obj 1) true c7map = .ok (.obj 2, st') ∧
      lookObs st' 2 = some (⟨1, strV (""), none, [], [], true⟩ : Info) ∧
      lookHeap st' 1 = some (.map [(.obj 0, numV 5)]) ∧
      lookHeap st' 0 = some (.record []) ∧
      isObservable st' (.obj 0) = .ok false := by
  refine ⟨{ heap := [(0, .record []), (1, .map [(.obj 0, numV 5)])],
            obs := [(2, (⟨1, strV (""), none, [], [], true⟩ : Info))],
            next := 3, log := [] }, ?_, rfl, rfl, rfl, rfl⟩
  rfl

end Obs
